import Mathlib

/-!
Shallow embedding of the token-metadata subsystem of the `tokengen2`
repository: the Express router for token metadata
(`routes/tokenMetadata` in `src/unnamed/part_002`) together with the
database schema and triggers declared in
`src/supabase/migrations/20250713213307_delicate_bird.sql` and
`src/supabase/migrations/20250713214351_rough_ocean.sql`.

The relational store is modelled as explicit lists of rows; each HTTP
handler becomes a pure function from an environment (clock, process
environment, external-service oracles), a database state and the request
data to a response paired with the successor database state.  SQL
triggers (`track_metadata_updates`, `update_modified_column`,
`link_temporary_metadata`) are folded into the functions that model the
corresponding `UPDATE`/`INSERT` statements, exactly as PostgreSQL would
fire them.  Nullable SQL columns and optional JSON body fields are
`Option String`; timestamps are abstract `Nat` instants.
-/

namespace TokenGen

/-! ### Address canonicalisation

The route code lowercases every address-typed value with JavaScript's
`String.prototype.toLowerCase()` before storing or comparing it.  The
addresses involved are ASCII, so lowering is modelled on the ASCII
range. -/

/-- Lowercase a single character (ASCII range, `A`–`Z` ↦ `a`–`z`). -/
def lowerChar (c : Char) : Char :=
  if 65 ≤ c.toNat ∧ c.toNat ≤ 90 then Char.ofNat (c.toNat + 32) else c

/-- Model of `s.toLowerCase()` as used on address strings. -/
def lowerStr (s : String) : String := ⟨s.data.map lowerChar⟩

/-! ### Row types (schema of the three migrations) -/

/-- A row of the `tokens` table (the columns the metadata router reads:
`contract_address`, `owner_address`, `network_id`). -/
structure TokenRow where
  contractAddress : String
  ownerAddress : String
  networkId : String
deriving Repr, DecidableEq

/-- A row of the `token_metadata` table. -/
structure MetaRow where
  tokenAddress : String
  name : Option String
  symbol : Option String
  description : Option String
  logoUrl : Option String
  websiteUrl : Option String
  twitterUrl : Option String
  telegramUrl : Option String
  discordUrl : Option String
  whitepaperUrl : Option String
  githubUrl : Option String
  tags : List String
  lastUpdatedBy : Option String
  updateCount : Nat
  verified : Bool
  createdAt : Nat
  updatedAt : Nat
deriving Repr, DecidableEq

/-- A row of the `temporary_metadata` table. -/
structure TempRow where
  sessionId : String
  creatorAddress : String
  name : Option String
  symbol : Option String
  description : Option String
  logoData : Option String
  websiteUrl : Option String
  twitterUrl : Option String
  telegramUrl : Option String
  discordUrl : Option String
  whitepaperUrl : Option String
  githubUrl : Option String
  tags : List String
  createdAt : Nat
  expiresAt : Nat
deriving Repr, DecidableEq

/-- A row of the `token_metadata_history` table; `previous_data` is the
`row_to_json(OLD)` snapshot, i.e. a full copy of the old row. -/
structure HistRow where
  tokenAddress : String
  updatedBy : Option String
  updateTimestamp : Nat
  previousData : MetaRow
deriving Repr, DecidableEq

/-- The database state seen by the metadata router. -/
structure DB where
  tokens : List TokenRow
  tokenMetadata : List MetaRow
  temporaryMetadata : List TempRow
  tokenMetadataHistory : List HistRow
deriving Repr, DecidableEq

/-- Request-independent context: the clock (`CURRENT_TIMESTAMP` /
`Date.now`), the process environment, and oracles for the external
services the router calls.

* `adminAddresses` models `process.env.ADMIN_ADDRESSES.split(',')`.
* `web3StorageToken` is whether `WEB3_STORAGE_TOKEN` is set
  (`getWeb3StorageClient` returns a client exactly then).
* `ipfsPut` is the outcome of `client.put(files)`: `some cid` on
  success, `none` when the call throws.
* `rpcUrls` models the `<NETWORK>_RPC_URL` environment variables,
  keyed by the token's `network_id`.
* `chainOwner` is the outcome of the on-chain `owner()` call on a
  contract address: `some addr` on success, `none` when it throws.
* `host` models `req.protocol + '://' + req.get('host')` for locally
  served upload URLs. -/
structure Env where
  now : Nat
  adminAddresses : List String
  web3StorageToken : Bool
  ipfsPut : Option String
  rpcUrls : String → Option String
  chainOwner : String → Option String
  host : String

/-- HTTP-level outcome of a handler.  `okEmpty` is
`res.json(result.rows[0])` when the statement returned zero rows
(JavaScript serialises `undefined`). -/
inductive Resp (α : Type) where
  | ok (val : α)
  | okEmpty
  | badRequest (msg : String)
  | forbidden (msg : String)
  | notFound (msg : String)
  | serverError (msg : String)
deriving Repr, DecidableEq

def Resp.isOk {α : Type} : Resp α → Bool
  | .ok _ => true
  | _ => false

def Resp.isNotFound {α : Type} : Resp α → Bool
  | .notFound _ => true
  | _ => false

def Resp.isForbidden {α : Type} : Resp α → Bool
  | .forbidden _ => true
  | _ => false

/-! ### SQL statement helpers -/

/-- `SELECT owner_address, network_id FROM tokens WHERE contract_address = $1`. -/
def findToken (db : DB) (addr : String) : Option TokenRow :=
  db.tokens.find? (fun t => t.contractAddress == addr)

/-- `SELECT * FROM token_metadata WHERE token_address = $1` (the column is
UNIQUE, so at most one row matches in a well-formed database). -/
def findMeta (db : DB) (addr : String) : Option MetaRow :=
  db.tokenMetadata.find? (fun m => m.tokenAddress == addr)

/-- The two `BEFORE UPDATE` triggers on `token_metadata`, fired in name
order for each updated row: `track_token_metadata_updates` inserts the
history row (`updated_by := NEW.last_updated_by`,
`previous_data := row_to_json(OLD)`) and then overwrites
`NEW.update_count := OLD.update_count + 1`; `update_token_metadata_modtime`
sets `NEW.updated_at := now()`.  Returns the finally stored row and the
produced history row. -/
def applyUpdateTriggers (now : Nat) (old new0 : MetaRow) : MetaRow × HistRow :=
  let hist : HistRow :=
    { tokenAddress := old.tokenAddress
      updatedBy := new0.lastUpdatedBy
      updateTimestamp := now
      previousData := old }
  let new1 := { new0 with updateCount := old.updateCount + 1 }
  let new2 := { new1 with updatedAt := now }
  (new2, hist)

/-- `UPDATE token_metadata SET … WHERE token_address = key RETURNING *`:
every matching row is replaced by the trigger-adjusted image of the SET
clause `set`, one history row is appended per matching row, and the list
of updated rows (`RETURNING *`) is returned. -/
def sqlUpdateMeta (now : Nat) (db : DB) (key : String) (set : MetaRow → MetaRow) :
    List MetaRow × DB :=
  let updated := (db.tokenMetadata.filter (fun m => m.tokenAddress == key)).map
    (fun old => (applyUpdateTriggers now old (set old)).1)
  let hists := (db.tokenMetadata.filter (fun m => m.tokenAddress == key)).map
    (fun old => (applyUpdateTriggers now old (set old)).2)
  let rows := db.tokenMetadata.map
    (fun old => if old.tokenAddress == key then (applyUpdateTriggers now old (set old)).1 else old)
  (updated,
   { db with tokenMetadata := rows
             tokenMetadataHistory := db.tokenMetadataHistory ++ hists })

/-- `INSERT INTO token_metadata … RETURNING *` (no trigger fires on insert:
`track_token_metadata_updates` only handles `TG_OP = 'UPDATE'`). -/
def sqlInsertMeta (db : DB) (m : MetaRow) : DB :=
  { db with tokenMetadata := db.tokenMetadata ++ [m] }

/-! ### Request bodies -/

/-- JSON body of `POST /` and `PUT /:tokenAddress` (descriptive fields;
absent JSON fields arrive as `undefined` and are stored as SQL NULL). -/
structure MetaBody where
  tokenAddress : Option String
  name : Option String
  symbol : Option String
  description : Option String
  logoUrl : Option String
  websiteUrl : Option String
  twitterUrl : Option String
  telegramUrl : Option String
  discordUrl : Option String
  whitepaperUrl : Option String
  githubUrl : Option String
  tags : List String
deriving Repr, DecidableEq

/-- JSON body of `POST /temporary`. -/
structure TempBody where
  sessionId : Option String
  name : Option String
  symbol : Option String
  description : Option String
  logoData : Option String
  websiteUrl : Option String
  twitterUrl : Option String
  telegramUrl : Option String
  discordUrl : Option String
  whitepaperUrl : Option String
  githubUrl : Option String
  tags : List String
deriving Repr, DecidableEq

/-- The multer-stored upload of `POST /upload-logo`: the name assigned on
disk and `path.extname(file.originalname)`. -/
structure UploadFile where
  filename : String
  originalExt : String
deriving Repr, DecidableEq

/-- Hours expressed in the abstract clock unit (seconds). -/
def hours24 : Nat := 24 * 60 * 60

/-! ### Route handlers -/

/-- `GET /:tokenAddress` — public read of `token_metadata`. -/
def getMetadata (db : DB) (tokenAddress : String) : Resp MetaRow × DB :=
  match findMeta db (lowerStr tokenAddress) with
  | none => (.notFound "Token metadata not found", db)
  | some m => (.ok m, db)

/-- `POST /temporary` — create or refresh a temporary metadata session.
The existence lookup filters on `session_id` only; a refresh leaves
`creator_address` and `created_at` untouched and resets `expires_at` to
`CURRENT_TIMESTAMP + INTERVAL '24 hours'`. -/
def postTemporary (env : Env) (db : DB) (callerAddress : String) (body : TempBody) :
    Resp TempRow × DB :=
  let userAddress := lowerStr callerAddress
  match body.sessionId with
  | none => (.badRequest "Session ID is required", db)
  | some sid =>
    match db.temporaryMetadata.find? (fun t => t.sessionId == sid) with
    | some _ =>
      let rows := db.temporaryMetadata.map (fun t =>
        if t.sessionId == sid then
          { t with name := body.name, symbol := body.symbol,
                   description := body.description, logoData := body.logoData,
                   websiteUrl := body.websiteUrl, twitterUrl := body.twitterUrl,
                   telegramUrl := body.telegramUrl, discordUrl := body.discordUrl,
                   whitepaperUrl := body.whitepaperUrl, githubUrl := body.githubUrl,
                   tags := body.tags, expiresAt := env.now + hours24 }
        else t)
      let db' := { db with temporaryMetadata := rows }
      ((match rows.find? (fun t => t.sessionId == sid) with
        | some r => Resp.ok r
        | none => Resp.okEmpty), db')
    | none =>
      let r : TempRow :=
        { sessionId := sid, creatorAddress := userAddress,
          name := body.name, symbol := body.symbol, description := body.description,
          logoData := body.logoData, websiteUrl := body.websiteUrl,
          twitterUrl := body.twitterUrl, telegramUrl := body.telegramUrl,
          discordUrl := body.discordUrl, whitepaperUrl := body.whitepaperUrl,
          githubUrl := body.githubUrl, tags := body.tags,
          createdAt := env.now, expiresAt := env.now + hours24 }
      (.ok r, { db with temporaryMetadata := db.temporaryMetadata ++ [r] })

/-- The logo branch of `POST /link`: when the session carries inline
`logo_data` and the Web3.Storage client is configured and the `put` call
succeeds, an IPFS URL is produced; every failure is swallowed and the
link proceeds with a NULL logo. -/
def linkLogoUrl (env : Env) (ta : String) (logoData : Option String) : Option String :=
  match logoData with
  | none => none
  | some _ =>
    if env.web3StorageToken then
      match env.ipfsPut with
      | some cid =>
        some ("https://" ++ cid ++ ".ipfs.dweb.link/token-logo-" ++ lowerStr ta ++ ".png")
      | none => none
    else none

/-- `POST /link` — bind a temporary session onto a token.  The ownership
check compares the caller to `tokens.owner_address`; the session lookup
filters on `session_id` and `creator_address` only (no `expires_at`
condition).  On success the consumed session is deleted by
`DELETE … WHERE session_id = $1`. -/
def linkSession (env : Env) (db : DB) (callerAddress : String)
    (tokenAddress sessionId : Option String) : Resp MetaRow × DB :=
  let userAddress := lowerStr callerAddress
  match tokenAddress, sessionId with
  | some ta, some sid =>
    match findToken db (lowerStr ta) with
    | none => (.notFound "Token not found", db)
    | some tok =>
      if lowerStr tok.ownerAddress ≠ userAddress then
        (.forbidden "Only the token owner can link metadata", db)
      else
        match db.temporaryMetadata.find?
            (fun t => t.sessionId == sid && t.creatorAddress == userAddress) with
        | none => (.notFound "Temporary metadata not found", db)
        | some temp =>
          let logoUrl := linkLogoUrl env ta temp.logoData
          match findMeta db (lowerStr ta) with
          | some _ =>
            let res := sqlUpdateMeta env.now db (lowerStr ta) (fun old =>
              { old with name := temp.name, symbol := temp.symbol,
                         description := temp.description,
                         logoUrl := match logoUrl with
                                    | some u => some u
                                    | none => old.logoUrl,
                         websiteUrl := temp.websiteUrl, twitterUrl := temp.twitterUrl,
                         telegramUrl := temp.telegramUrl, discordUrl := temp.discordUrl,
                         whitepaperUrl := temp.whitepaperUrl, githubUrl := temp.githubUrl,
                         tags := temp.tags, lastUpdatedBy := some userAddress,
                         updateCount := old.updateCount + 1 })
            let db2 := { res.2 with
              temporaryMetadata := (res.2).temporaryMetadata.filter (fun t => !(t.sessionId == sid)) }
            ((match res.1.head? with
              | some r => Resp.ok r
              | none => Resp.okEmpty), db2)
          | none =>
            let r : MetaRow :=
              { tokenAddress := lowerStr ta, name := temp.name, symbol := temp.symbol,
                description := temp.description, logoUrl := logoUrl,
                websiteUrl := temp.websiteUrl, twitterUrl := temp.twitterUrl,
                telegramUrl := temp.telegramUrl, discordUrl := temp.discordUrl,
                whitepaperUrl := temp.whitepaperUrl, githubUrl := temp.githubUrl,
                tags := temp.tags, lastUpdatedBy := some userAddress, updateCount := 1,
                verified := false, createdAt := env.now, updatedAt := env.now }
            let db1 := sqlInsertMeta db r
            let db2 := { db1 with
              temporaryMetadata := db1.temporaryMetadata.filter (fun t => !(t.sessionId == sid)) }
            (.ok r, db2)
  | _, _ => (.badRequest "Token address and session ID are required", db)

/-- Descending insertion by `update_timestamp` (`ORDER BY update_timestamp DESC`). -/
def insertByTsDesc (h : HistRow) : List HistRow → List HistRow
  | [] => [h]
  | x :: xs =>
    if x.updateTimestamp < h.updateTimestamp then h :: x :: xs
    else x :: insertByTsDesc h xs

/-- `GET /:tokenAddress/history` — owner-only, newest first. -/
def getHistory (db : DB) (callerAddress : String) (tokenAddress : String) :
    Resp (List HistRow) × DB :=
  let userAddress := lowerStr callerAddress
  match findToken db (lowerStr tokenAddress) with
  | none => (.notFound "Token not found", db)
  | some tok =>
    if lowerStr tok.ownerAddress ≠ userAddress then
      (.forbidden "Only the token owner can view metadata history", db)
    else
      let rows := db.tokenMetadataHistory.filter
        (fun h => h.tokenAddress == lowerStr tokenAddress)
      (.ok (rows.foldr insertByTsDesc []), db)

/-- `POST /:tokenAddress/verify` — admin-only; sets `verified = true`
via an UPDATE, so the history/count triggers fire as well. -/
def verifyMetadata (env : Env) (db : DB) (callerAddress : String) (tokenAddress : String) :
    Resp MetaRow × DB :=
  let userAddress := lowerStr callerAddress
  if ¬ (env.adminAddresses.map lowerStr).contains userAddress then
    (.forbidden "Only admins can verify metadata", db)
  else
    let res := sqlUpdateMeta env.now db (lowerStr tokenAddress)
      (fun old => { old with verified := true })
    ((match res.1.head? with
      | none => Resp.notFound "Token metadata not found"
      | some r => Resp.ok r), res.2)

/-- `POST /` — create-or-update.  The ownership guard runs only when
`tokenAddress` is present; the subsequent existence lookup evaluates
`metadata.tokenAddress.toLowerCase()` unconditionally, which throws a
`TypeError` when the field is absent — the handler's `catch` turns that
into a 500 response with nothing written. -/
def postMetadata (env : Env) (db : DB) (callerAddress : String) (body : MetaBody) :
    Resp MetaRow × DB :=
  let userAddress := lowerStr callerAddress
  match body.tokenAddress with
  | none => (.serverError "Failed to save token metadata", db)
  | some ta =>
    match findToken db (lowerStr ta) with
    | none => (.notFound "Token not found", db)
    | some tok =>
      if lowerStr tok.ownerAddress ≠ userAddress then
        (.forbidden "Only the token owner can update metadata", db)
      else
        match findMeta db (lowerStr ta) with
        | some _ =>
          let res := sqlUpdateMeta env.now db (lowerStr ta) (fun old =>
            { old with name := body.name, symbol := body.symbol,
                       description := body.description, logoUrl := body.logoUrl,
                       websiteUrl := body.websiteUrl, twitterUrl := body.twitterUrl,
                       telegramUrl := body.telegramUrl, discordUrl := body.discordUrl,
                       whitepaperUrl := body.whitepaperUrl, githubUrl := body.githubUrl,
                       tags := body.tags, lastUpdatedBy := some userAddress,
                       updateCount := old.updateCount + 1 })
          ((match res.1.head? with
            | some r => Resp.ok r
            | none => Resp.okEmpty), res.2)
        | none =>
          let r : MetaRow :=
            { tokenAddress := lowerStr ta, name := body.name, symbol := body.symbol,
              description := body.description, logoUrl := body.logoUrl,
              websiteUrl := body.websiteUrl, twitterUrl := body.twitterUrl,
              telegramUrl := body.telegramUrl, discordUrl := body.discordUrl,
              whitepaperUrl := body.whitepaperUrl, githubUrl := body.githubUrl,
              tags := body.tags, lastUpdatedBy := some userAddress, updateCount := 1,
              verified := false, createdAt := env.now, updatedAt := env.now }
          (.ok r, sqlInsertMeta db r)

/-- `PUT /:tokenAddress` — ownership-gated update.  The SET list covers
the descriptive fields only: neither `last_updated_by` nor
`update_count` appears in it (the count still advances because the
trigger overwrites it). -/
def putMetadata (env : Env) (db : DB) (callerAddress : String) (tokenAddress : String)
    (body : MetaBody) : Resp MetaRow × DB :=
  let userAddress := lowerStr callerAddress
  match findToken db (lowerStr tokenAddress) with
  | none => (.notFound "Token not found", db)
  | some tok =>
    if lowerStr tok.ownerAddress ≠ userAddress then
      (.forbidden "Only the token owner can update metadata", db)
    else
      let res := sqlUpdateMeta env.now db (lowerStr tokenAddress) (fun old =>
        { old with name := body.name, symbol := body.symbol,
                   description := body.description, logoUrl := body.logoUrl,
                   websiteUrl := body.websiteUrl, twitterUrl := body.twitterUrl,
                   telegramUrl := body.telegramUrl, discordUrl := body.discordUrl,
                   whitepaperUrl := body.whitepaperUrl, githubUrl := body.githubUrl,
                   tags := body.tags })
      ((match res.1.head? with
        | none => Resp.notFound "Token metadata not found"
        | some r => Resp.ok r), res.2)

/-- URL produced by `POST /upload-logo` for the stored asset.  With a
configured Web3.Storage client the IPFS path is attempted first; inside
that `try` block `tokenAddress.toLowerCase()` throws when the field is
absent, and any throw (including a failing `put`) falls back to the
locally served file URL. -/
def computeLogoUrl (env : Env) (tokenAddress : Option String) (f : UploadFile) : String :=
  if env.web3StorageToken then
    match tokenAddress with
    | some ta =>
      match env.ipfsPut with
      | some cid =>
        "https://" ++ cid ++ ".ipfs.dweb.link/token-logo-" ++ lowerStr ta ++ f.originalExt
      | none => env.host ++ "/uploads/" ++ f.filename
    | none => env.host ++ "/uploads/" ++ f.filename
  else env.host ++ "/uploads/" ++ f.filename

/-- `POST /upload-logo` — ownership-gated when `tokenAddress` is given;
persists the produced URL with an UPDATE that is silently a no-op when
no `token_metadata` row matches, and responds `{ logoUrl }`. -/
def uploadLogo (env : Env) (db : DB) (callerAddress : String)
    (tokenAddress : Option String) (file : Option UploadFile) : Resp String × DB :=
  let userAddress := lowerStr callerAddress
  match file with
  | none => (.badRequest "No file uploaded", db)
  | some f =>
    match tokenAddress with
    | some ta =>
      match findToken db (lowerStr ta) with
      | none => (.notFound "Token not found", db)
      | some tok =>
        if lowerStr tok.ownerAddress ≠ userAddress then
          (.forbidden "Only the token owner can upload a logo", db)
        else
          let logoUrl := computeLogoUrl env (some ta) f
          let res := sqlUpdateMeta env.now db (lowerStr ta) (fun old =>
            { old with logoUrl := some logoUrl, lastUpdatedBy := some userAddress })
          (.ok logoUrl, res.2)
    | none =>
      (.ok (computeLogoUrl env none f), db)

/-- The on-chain ownership helper `verifyTokenOwnership` defined at the
bottom of the router file: reads the token's `network_id`, requires a
configured RPC URL for it, calls the contract's read-only `owner()`
accessor and compares lowercased addresses; every failure yields
`false`.  (No route handler in the file ever calls it.) -/
def verifyTokenOwnership (env : Env) (db : DB) (tokenAddress walletAddress : String) : Bool :=
  match findToken db (lowerStr tokenAddress) with
  | none => false
  | some tok =>
    match env.rpcUrls tok.networkId with
    | none => false
    | some _ =>
      match env.chainOwner tokenAddress with
      | none => false
      | some owner => lowerStr owner == lowerStr walletAddress

/-! ### Database-side operations (triggers and maintenance) -/

/-- `ORDER BY created_at DESC LIMIT 1` over the candidate sessions: a
row with maximal `created_at` (ties are broken arbitrarily by SQL; this
model keeps the later row of the list). -/
def mostRecentTemp : List TempRow → Option TempRow
  | [] => none
  | t :: ts =>
    match mostRecentTemp ts with
    | none => some t
    | some b => if b.createdAt < t.createdAt then some t else some b

/-- The `token_metadata` row the `link_temporary_metadata` trigger
inserts for a freshly inserted token `t` from session `s`
(`logo_url` NULL, `update_count` 1). -/
def triggerMetaRow (now : Nat) (t : TokenRow) (s : TempRow) : MetaRow :=
  { tokenAddress := t.contractAddress, name := s.name, symbol := s.symbol,
    description := s.description, logoUrl := none,
    websiteUrl := s.websiteUrl, twitterUrl := s.twitterUrl,
    telegramUrl := s.telegramUrl, discordUrl := s.discordUrl,
    whitepaperUrl := s.whitepaperUrl, githubUrl := s.githubUrl,
    tags := s.tags, lastUpdatedBy := some t.ownerAddress, updateCount := 1,
    verified := false, createdAt := now, updatedAt := now }

/-- The `INSERT INTO token_metadata … SELECT … ORDER BY created_at DESC
LIMIT 1` statement of the `link_temporary_metadata` trigger: copy the
owner's most recently created non-expired session, if any. -/
def insertTokenLinked (env : Env) (db0 : DB) (t : TokenRow) : DB :=
  match mostRecentTemp (db0.temporaryMetadata.filter
      (fun s => s.creatorAddress == t.ownerAddress && decide (env.now < s.expiresAt))) with
  | none => db0
  | some s => sqlInsertMeta db0 (triggerMetaRow env.now t s)

/-- `INSERT INTO tokens …` together with the `AFTER INSERT` trigger
`link_temporary_metadata`: copy the owner's most recently created
non-expired session (if any) into `token_metadata` with
`update_count = 1`, then delete all of the owner's non-expired sessions.
A duplicate `contract_address` violates the UNIQUE constraint, the
insert fails and the trigger never runs. -/
def insertToken (env : Env) (db : DB) (t : TokenRow) : DB :=
  if db.tokens.any (fun u => u.contractAddress == t.contractAddress) then db
  else
    let db1 := insertTokenLinked env { db with tokens := db.tokens ++ [t] } t
    let rest := db1.temporaryMetadata.filter
      (fun s => !(s.creatorAddress == t.ownerAddress && decide (env.now < s.expiresAt)))
    { db1 with temporaryMetadata := rest }

/-- `cleanup_expired_metadata()` — the opportunistic sweep:
`DELETE FROM temporary_metadata WHERE expires_at < CURRENT_TIMESTAMP`. -/
def cleanupExpiredMetadata (env : Env) (db : DB) : DB :=
  { db with temporaryMetadata :=
      db.temporaryMetadata.filter (fun s => !(decide (s.expiresAt < env.now))) }

/-! ### Concrete fixtures used by witnesses and counterexamples -/

/-- A baseline environment: clock at 1000, one admin, no Web3.Storage
client, no RPC endpoints configured. -/
def envBase : Env :=
  { now := 1000, adminAddresses := ["0xAdmin"], web3StorageToken := false,
    ipfsPut := none, rpcUrls := fun _ => none, chainOwner := fun _ => none,
    host := "http://localhost:3001" }

/-- An environment whose chain oracle answers: the RPC URL for `sepolia`
is configured and the `owner()` accessor of contract `0xT1` returns
`0xBob`. -/
def envChain : Env :=
  { envBase with
    rpcUrls := fun n => if n == "sepolia" then some "https://rpc.example" else none,
    chainOwner := fun a => if a == "0xT1" then some "0xBob" else none }

/-- A deployed token: contract `0xt1` on `sepolia`, owner recorded in the
`tokens` table as `0xAlice`. -/
def tokT1 : TokenRow :=
  { contractAddress := "0xt1", ownerAddress := "0xAlice", networkId := "sepolia" }

/-- An existing metadata row for `0xt1`, last updated by `0xcarol`,
with three updates so far. -/
def metaM1 : MetaRow :=
  { tokenAddress := "0xt1", name := some "Foo", symbol := some "FOO",
    description := some "old description", logoUrl := none,
    websiteUrl := none, twitterUrl := none, telegramUrl := none,
    discordUrl := none, whitepaperUrl := none, githubUrl := none,
    tags := [], lastUpdatedBy := some "0xcarol", updateCount := 3,
    verified := false, createdAt := 10, updatedAt := 10 }

/-- A temporary session created by `0xalice` that expired at instant 500
(the clock of `envBase` stands at 1000). -/
def tempExpired : TempRow :=
  { sessionId := "s1", creatorAddress := "0xalice", name := some "Foo",
    symbol := some "FOO", description := none, logoData := none,
    websiteUrl := none, twitterUrl := none, telegramUrl := none,
    discordUrl := none, whitepaperUrl := none, githubUrl := none,
    tags := [], createdAt := 400, expiresAt := 500 }

/-- Token `0xt1` with an existing metadata row and no sessions. -/
def dbOwned : DB :=
  { tokens := [tokT1], tokenMetadata := [metaM1],
    temporaryMetadata := [], tokenMetadataHistory := [] }

/-- Token `0xt1` with no metadata row (e.g. freshly deployed). -/
def dbNoMeta : DB :=
  { tokens := [tokT1], tokenMetadata := [],
    temporaryMetadata := [], tokenMetadataHistory := [] }

/-- Token `0xt1`, an existing metadata row, and one already expired
session of its owner. -/
def dbExpiredSession : DB :=
  { tokens := [tokT1], tokenMetadata := [metaM1],
    temporaryMetadata := [tempExpired], tokenMetadataHistory := [] }

/-- A request body updating the descriptive fields of `0xT1`
(mixed-case spelling of the token address). -/
def bodyUpd : MetaBody :=
  { tokenAddress := some "0xT1", name := some "New name", symbol := some "NEW",
    description := some "new description", logoUrl := none,
    websiteUrl := none, twitterUrl := none, telegramUrl := none,
    discordUrl := none, whitepaperUrl := none, githubUrl := none, tags := [] }

/-- The same body with the `tokenAddress` field omitted. -/
def bodyNoAddr : MetaBody := { bodyUpd with tokenAddress := none }

/-- An uploaded logo file as multer stores it. -/
def fileLogo : UploadFile := { filename := "logo-17-42.png", originalExt := ".png" }

/-- A non-expired session of `0xalice`, created after `tempExpired`. -/
def tempValid : TempRow :=
  { tempExpired with sessionId := "s2", createdAt := 900, expiresAt := 90000 }

/-- A store holding one expired and one valid session of `0xalice` and
no tokens yet. -/
def dbTwoSessions : DB :=
  { tokens := [], tokenMetadata := [],
    temporaryMetadata := [tempExpired, tempValid], tokenMetadataHistory := [] }

/-- A token about to be inserted for owner `0xalice`. -/
def tokNew : TokenRow :=
  { contractAddress := "0xt2", ownerAddress := "0xalice", networkId := "sepolia" }

/-- A session-upsert body refreshing session `s1`. -/
def bodyTemp : TempBody :=
  { sessionId := some "s1", name := some "Bar", symbol := some "BAR",
    description := none, logoData := none, websiteUrl := none,
    twitterUrl := none, telegramUrl := none, discordUrl := none,
    whitepaperUrl := none, githubUrl := none, tags := [] }

/-- Replace only the chain-facing oracles (the `owner()` accessor and
the RPC-URL configuration) of an environment. -/
def chainEnv (e : Env) (co : String → Option String) (rp : String → Option String) : Env :=
  { e with chainOwner := co, rpcUrls := rp }

/-! ### Operation traces over the store

Everything in the repository that can change the metadata tables, as one
step relation, so that invariants can be stated over arbitrary
interleavings of requests and database-side jobs. -/

/-- One mutating operation against the store. -/
inductive Op where
  | temporary (caller : String) (body : TempBody)
  | link (caller : String) (tokenAddress sessionId : Option String)
  | create (caller : String) (body : MetaBody)
  | update (caller : String) (tokenAddress : String) (body : MetaBody)
  | verify (caller : String) (tokenAddress : String)
  | upload (caller : String) (tokenAddress : Option String) (file : Option UploadFile)
  | tokenInsert (t : TokenRow)
  | cleanup
deriving Repr

/-- The database state after one operation (responses discarded). -/
def stepOp (env : Env) (op : Op) (db : DB) : DB :=
  match op with
  | .temporary c b => (postTemporary env db c b).2
  | .link c ta sid => (linkSession env db c ta sid).2
  | .create c b => (postMetadata env db c b).2
  | .update c ta b => (putMetadata env db c ta b).2
  | .verify c ta => (verifyMetadata env db c ta).2
  | .upload c ta f => (uploadLogo env db c ta f).2
  | .tokenInsert t => insertToken env db t
  | .cleanup => cleanupExpiredMetadata env db

/-- A trace of operations, each with its own environment (the clock may
advance between requests). -/
def applyOps : List (Env × Op) → DB → DB
  | [], db => db
  | (e, op) :: rest, db => applyOps rest (stepOp e op db)

/-- Number of history rows recorded for a token address. -/
def histCount (db : DB) (a : String) : Nat :=
  (db.tokenMetadataHistory.filter (fun h => h.tokenAddress == a)).length

/-- The inductive store invariant.  Metadata keys are unique (the UNIQUE
constraint), every metadata row references an existing token (the
foreign key), history rows only exist for tokens that still have a
metadata row (history is only ever written by the update trigger, and
nothing in scope deletes metadata), and every row's `update_count`
exceeds the number of its history rows by exactly its creation value —
every creation path in the code inserts `update_count = 1`. -/
def MetaInv (db : DB) : Prop :=
  (db.tokenMetadata.map (fun m => m.tokenAddress)).Nodup ∧
  (∀ m ∈ db.tokenMetadata, ∃ t ∈ db.tokens, t.contractAddress = m.tokenAddress) ∧
  (∀ h ∈ db.tokenMetadataHistory, ∃ m ∈ db.tokenMetadata, m.tokenAddress = h.tokenAddress) ∧
  (∀ m ∈ db.tokenMetadata, m.updateCount = 1 + histCount db m.tokenAddress)

/-- Count growth: every metadata row of `db` survives into `db'` (same
address) with an equal or larger `update_count` — no operation ever
deletes a metadata row or lowers its counter. -/
def metaLe (db db' : DB) : Prop :=
  ∀ m ∈ db.tokenMetadata, ∃ m' ∈ db'.tokenMetadata,
    m'.tokenAddress = m.tokenAddress ∧ m.updateCount ≤ m'.updateCount

/-! ## Theorems -/

/-- Packing a valid codepoint and reading it back is the identity. -/
theorem toNat_ofNat_valid (n : Nat) (h : Nat.isValidChar n) : (Char.ofNat n).toNat = n := by
  simp [Char.ofNat, h, Char.ofNatAux, Char.toNat]
  rfl

/-- ASCII lowering is idempotent on characters. -/
theorem lowerChar_idem (c : Char) : lowerChar (lowerChar c) = lowerChar c := by
  unfold lowerChar
  by_cases h : 65 ≤ c.toNat ∧ c.toNat ≤ 90
  · have hv : Nat.isValidChar (c.toNat + 32) := Or.inl (by omega)
    have ht : (Char.ofNat (c.toNat + 32)).toNat = c.toNat + 32 := toNat_ofNat_valid _ hv
    rw [if_pos h, if_neg (by rw [ht]; omega)]
  · rw [if_neg h, if_neg h]

theorem map_lowerChar_idem (l : List Char) :
    (l.map lowerChar).map lowerChar = l.map lowerChar := by
  induction l with
  | nil => rfl
  | cons c t ih => simp [lowerChar_idem, ih]

/-- `toLowerCase` is idempotent on strings. -/
theorem lowerStr_idem (s : String) : lowerStr (lowerStr s) = lowerStr s := by
  show (⟨(s.data.map lowerChar).map lowerChar⟩ : String) = ⟨s.data.map lowerChar⟩
  rw [map_lowerChar_idem]

/-- C10: for every tokenAddress string, `Get` applied to a mixed-case
spelling and `Get` applied to its lowercase form return the same result
(the same record, or not-found in both cases): the handler lowers the
path parameter before the lookup, and lowering is idempotent. -/
theorem get_metadata_case_insensitive (db : DB) (s : String) :
    getMetadata db s = getMetadata db (lowerStr s) := by
  unfold getMetadata findMeta
  rw [lowerStr_idem]

/-! ### List bookkeeping lemmas for the UPDATE model -/

/-- With pairwise distinct addresses, the rows matching a present
address form exactly the singleton of that row. -/
theorem nodup_filter_single (l : List MetaRow) (key : String)
    (hnd : (l.map (fun m => m.tokenAddress)).Nodup)
    (m0 : MetaRow) (hm : m0 ∈ l) (hkey : m0.tokenAddress = key) :
    l.filter (fun m => m.tokenAddress == key) = [m0] := by
  induction l with
  | nil => cases hm
  | cons x xs ih =>
    rw [List.map_cons, List.nodup_cons] at hnd
    rw [List.filter_cons]
    rcases List.mem_cons.mp hm with rfl | hmem
    · rw [if_pos (by simp [hkey])]
      have hnil : xs.filter (fun m => m.tokenAddress == key) = [] := by
        apply List.filter_eq_nil_iff.mpr
        intro y hy hq
        rw [beq_iff_eq] at hq
        have hy' : y.tokenAddress ∈ xs.map (fun m => m.tokenAddress) :=
          List.mem_map_of_mem _ hy
        rw [hq, ← hkey] at hy'
        exact hnd.1 hy'
      rw [hnil]
    · have hx : ¬ (x.tokenAddress == key) = true := by
        rw [beq_iff_eq]
        intro hx
        have hy' : m0.tokenAddress ∈ xs.map (fun m => m.tokenAddress) :=
          List.mem_map_of_mem _ hmem
        rw [hkey, ← hx] at hy'
        exact hnd.1 hy'
      rw [if_neg hx]
      exact ih hnd.2 hmem

/-- Filtering the image of a selective rewrite: when the rewrite
preserves the selection predicate, the selected rows of the image are
the images of the selected rows. -/
theorem filter_map_ite {α : Type} (l : List α) (q : α → Bool) (g : α → α)
    (hg : ∀ x, q (g x) = q x) :
    (l.map (fun x => if q x then g x else x)).filter q = (l.filter q).map g := by
  induction l with
  | nil => rfl
  | cons x xs ih =>
    by_cases hx : q x = true
    · simp [List.filter_cons, hg, hx, ih]
    · simp [List.filter_cons, hg, hx, ih]

/-- Mapping an attribute through a selective rewrite that preserves it. -/
theorem map_map_ite {α β : Type} (l : List α) (q : α → Bool) (g : α → α) (f : α → β)
    (hf : ∀ x, f (g x) = f x) :
    (l.map (fun x => if q x then g x else x)).map f = l.map f := by
  induction l with
  | nil => rfl
  | cons x xs ih =>
    rw [List.map_cons, List.map_cons, List.map_cons, ih]
    by_cases hq : q x = true
    · rw [if_pos hq, hf]
    · rw [if_neg hq]

/-! ### Properties of the modelled UPDATE statement -/

theorem applyUpdateTriggers_fst_tokenAddress (now : Nat) (old new0 : MetaRow) :
    ((applyUpdateTriggers now old new0).1).tokenAddress = new0.tokenAddress := rfl

theorem applyUpdateTriggers_fst_updateCount (now : Nat) (old new0 : MetaRow) :
    ((applyUpdateTriggers now old new0).1).updateCount = old.updateCount + 1 := rfl

theorem applyUpdateTriggers_snd (now : Nat) (old new0 : MetaRow) :
    (applyUpdateTriggers now old new0).2 =
      { tokenAddress := old.tokenAddress, updatedBy := new0.lastUpdatedBy,
        updateTimestamp := now, previousData := old } := rfl

/-- Exactness of an UPDATE that hits a present row `m0` of a store with
unique keys: `RETURNING *` yields exactly the trigger image of `m0`,
exactly one history row is appended and its snapshot is `m0` itself, the
stored rows at the key become that single image, and the other tables
are untouched. -/
theorem sqlUpdateMeta_exact (now : Nat) (db : DB) (key : String) (upd : MetaRow → MetaRow)
    (m0 : MetaRow)
    (hpres : ∀ x, (upd x).tokenAddress = x.tokenAddress)
    (hnd : (db.tokenMetadata.map (fun m => m.tokenAddress)).Nodup)
    (hm : m0 ∈ db.tokenMetadata) (hkey : m0.tokenAddress = key) :
    (sqlUpdateMeta now db key upd).1 = [(applyUpdateTriggers now m0 (upd m0)).1] ∧
    ((sqlUpdateMeta now db key upd).2).tokenMetadataHistory
      = db.tokenMetadataHistory ++ [(applyUpdateTriggers now m0 (upd m0)).2] ∧
    ((sqlUpdateMeta now db key upd).2).tokenMetadata.filter (fun m => m.tokenAddress == key)
      = [(applyUpdateTriggers now m0 (upd m0)).1] ∧
    ((sqlUpdateMeta now db key upd).2).tokens = db.tokens ∧
    ((sqlUpdateMeta now db key upd).2).temporaryMetadata = db.temporaryMetadata := by
  have hfil := nodup_filter_single db.tokenMetadata key hnd m0 hm hkey
  refine ⟨?_, ?_, ?_, rfl, rfl⟩
  · show (db.tokenMetadata.filter (fun m => m.tokenAddress == key)).map _ = _
    rw [hfil]; rfl
  · show db.tokenMetadataHistory ++
      (db.tokenMetadata.filter (fun m => m.tokenAddress == key)).map _ = _
    rw [hfil]; rfl
  · show (db.tokenMetadata.map _).filter _ = _
    rw [filter_map_ite db.tokenMetadata (fun m => m.tokenAddress == key)
          (fun old => (applyUpdateTriggers now old (upd old)).1)
          (fun x => by
            show ((applyUpdateTriggers now x (upd x)).1.tokenAddress == key)
              = (x.tokenAddress == key)
            rw [applyUpdateTriggers_fst_tokenAddress, hpres]),
        hfil]
    rfl

/-- Updates never shrink `update_count`: every stored row survives an
UPDATE at the same address with an equal or larger count. -/
theorem sqlUpdateMeta_mono (now : Nat) (db : DB) (key : String) (upd : MetaRow → MetaRow)
    (hpres : ∀ x, (upd x).tokenAddress = x.tokenAddress) :
    ∀ m ∈ db.tokenMetadata, ∃ m' ∈ ((sqlUpdateMeta now db key upd).2).tokenMetadata,
      m'.tokenAddress = m.tokenAddress ∧ m.updateCount ≤ m'.updateCount := by
  intro m hm
  by_cases hq : (m.tokenAddress == key) = true
  · refine ⟨(applyUpdateTriggers now m (upd m)).1, ?_, ?_, ?_⟩
    · exact List.mem_map.mpr ⟨m, hm, by
        show (if (m.tokenAddress == key) = true
          then (applyUpdateTriggers now m (upd m)).1 else m) = _
        rw [if_pos hq]⟩
    · rw [applyUpdateTriggers_fst_tokenAddress, hpres]
    · rw [applyUpdateTriggers_fst_updateCount]; omega
  · refine ⟨m, ?_, rfl, Nat.le_refl _⟩
    exact List.mem_map.mpr ⟨m, hm, by
      show (if (m.tokenAddress == key) = true
        then (applyUpdateTriggers now m (upd m)).1 else m) = m
      rw [if_neg hq]⟩

/-- Decomposition of the history count after an UPDATE. -/
theorem histCount_sqlUpdateMeta (now : Nat) (db : DB) (key : String)
    (upd : MetaRow → MetaRow) (a : String) :
    histCount (sqlUpdateMeta now db key upd).2 a =
      histCount db a +
        (((db.tokenMetadata.filter (fun m => m.tokenAddress == key)).map
          (fun old => (applyUpdateTriggers now old (upd old)).2)).filter
            (fun h => h.tokenAddress == a)).length := by
  show (List.filter _ (db.tokenMetadataHistory ++ _)).length = _
  rw [List.filter_append, List.length_append]
  rfl

/-- An UPDATE whose SET clause keeps the key column preserves the store
invariant. -/
theorem sqlUpdateMeta_inv (now : Nat) (db : DB) (key : String) (upd : MetaRow → MetaRow)
    (hpres : ∀ x, (upd x).tokenAddress = x.tokenAddress)
    (hinv : MetaInv db) : MetaInv (sqlUpdateMeta now db key upd).2 := by
  obtain ⟨hnd, hfk, hhfk, hcnt⟩ := hinv
  have haddr : ∀ x : MetaRow,
      ((applyUpdateTriggers now x (upd x)).1).tokenAddress = x.tokenAddress := by
    intro x; rw [applyUpdateTriggers_fst_tokenAddress, hpres]
  have hrows : ((sqlUpdateMeta now db key upd).2).tokenMetadata =
      db.tokenMetadata.map
        (fun old => if old.tokenAddress == key then (applyUpdateTriggers now old (upd old)).1 else old) := rfl
  have hlift : ∀ m ∈ db.tokenMetadata,
      ∃ m' ∈ ((sqlUpdateMeta now db key upd).2).tokenMetadata,
        m'.tokenAddress = m.tokenAddress := by
    intro m hm
    obtain ⟨m', hmem, heq, _⟩ := sqlUpdateMeta_mono now db key upd hpres m hm
    exact ⟨m', hmem, heq⟩
  refine ⟨?_, ?_, ?_, ?_⟩
  · rw [hrows, map_map_ite db.tokenMetadata _ _ _
      (fun x => by rw [haddr])]
    exact hnd
  · intro m' hm'
    rw [hrows] at hm'
    obtain ⟨x, hx, rfl⟩ := List.mem_map.mp hm'
    obtain ⟨t, ht, htaddr⟩ := hfk x hx
    refine ⟨t, ht, ?_⟩
    by_cases hq : (x.tokenAddress == key) = true
    · rw [if_pos hq, haddr]; exact htaddr
    · rw [if_neg hq]; exact htaddr
  · intro h' hh'
    have hh2 : h' ∈ db.tokenMetadataHistory ++
        (db.tokenMetadata.filter (fun m => m.tokenAddress == key)).map
          (fun old => (applyUpdateTriggers now old (upd old)).2) := hh'
    rcases List.mem_append.mp hh2 with hold | hnew
    · obtain ⟨m, hm, hmaddr⟩ := hhfk h' hold
      obtain ⟨m', hmem, heq⟩ := hlift m hm
      exact ⟨m', hmem, heq.trans hmaddr⟩
    · obtain ⟨x, hxf, rfl⟩ := List.mem_map.mp hnew
      have hx : x ∈ db.tokenMetadata := List.mem_of_mem_filter hxf
      obtain ⟨m', hmem, heq⟩ := hlift x hx
      refine ⟨m', hmem, ?_⟩
      rw [applyUpdateTriggers_snd]
      exact heq
  · intro m' hm'
    rw [hrows] at hm'
    obtain ⟨x, hx, rfl⟩ := List.mem_map.mp hm'
    by_cases hq : (x.tokenAddress == key) = true
    · rw [if_pos hq]
      have hxkey : x.tokenAddress = key := beq_iff_eq.mp hq
      have hfil := nodup_filter_single db.tokenMetadata key hnd x hx hxkey
      have hhc : histCount (sqlUpdateMeta now db key upd).2
          ((applyUpdateTriggers now x (upd x)).1.tokenAddress)
            = histCount db x.tokenAddress + 1 := by
        rw [haddr, histCount_sqlUpdateMeta, hfil]
        have : (([(applyUpdateTriggers now x (upd x)).2]).filter
            (fun h => h.tokenAddress == x.tokenAddress)).length = 1 := by
          rw [List.filter_cons]
          rw [if_pos (by rw [applyUpdateTriggers_snd]; exact beq_self_eq_true _)]
          rfl
        rw [← this]; rfl
      rw [hhc, applyUpdateTriggers_fst_updateCount, hcnt x hx]
      omega
    · rw [if_neg hq]
      have hxkey : x.tokenAddress ≠ key := fun h => hq (beq_iff_eq.mpr h)
      have hnil : (((db.tokenMetadata.filter (fun m => m.tokenAddress == key)).map
          (fun old => (applyUpdateTriggers now old (upd old)).2)).filter
            (fun h => h.tokenAddress == x.tokenAddress)) = [] := by
        apply List.filter_eq_nil_iff.mpr
        intro y hy hb
        obtain ⟨z, hzf, rfl⟩ := List.mem_map.mp hy
        have hz : (z.tokenAddress == key) = true := (List.mem_filter.mp hzf).2
        rw [applyUpdateTriggers_snd] at hb
        have h1 : z.tokenAddress = x.tokenAddress := beq_iff_eq.mp hb
        have h2 : z.tokenAddress = key := beq_iff_eq.mp hz
        exact hxkey (h1 ▸ h2)
      have hhc : histCount (sqlUpdateMeta now db key upd).2 x.tokenAddress
          = histCount db x.tokenAddress := by
        rw [histCount_sqlUpdateMeta, hnil]
        rfl
      rw [hhc]
      exact hcnt x hx

/-- Inserting a fresh metadata row with `update_count = 1` (every
creation path in the code) preserves the store invariant, provided the
referenced token exists. -/
theorem sqlInsertMeta_inv (db : DB) (m : MetaRow)
    (hfresh : ∀ x ∈ db.tokenMetadata, x.tokenAddress ≠ m.tokenAddress)
    (htok : ∃ t ∈ db.tokens, t.contractAddress = m.tokenAddress)
    (hone : m.updateCount = 1)
    (hinv : MetaInv db) : MetaInv (sqlInsertMeta db m) := by
  obtain ⟨hnd, hfk, hhfk, hcnt⟩ := hinv
  have hhc0 : histCount db m.tokenAddress = 0 := by
    by_contra hne
    have hpos : (db.tokenMetadataHistory.filter
        (fun h => h.tokenAddress == m.tokenAddress)) ≠ [] := by
      intro hnil
      exact hne (by unfold histCount; rw [hnil]; rfl)
    obtain ⟨y, hy⟩ := List.exists_mem_of_ne_nil _ hpos
    obtain ⟨hyh, hyb⟩ := List.mem_filter.mp hy
    obtain ⟨z, hz, hzaddr⟩ := hhfk y hyh
    exact hfresh z hz (hzaddr.trans (beq_iff_eq.mp hyb))
  refine ⟨?_, ?_, ?_, ?_⟩
  · show ((db.tokenMetadata ++ [m]).map (fun r => r.tokenAddress)).Nodup
    rw [List.map_append]
    refine List.Nodup.append hnd (List.nodup_singleton _) ?_
    intro a ha hb
    obtain ⟨x, hx, hxa⟩ := List.mem_map.mp ha
    obtain ⟨x', hx', hxb⟩ := List.mem_map.mp hb
    rw [List.mem_singleton] at hx'
    rw [hx'] at hxb
    exact hfresh x hx (hxa.trans hxb.symm)
  · intro x hx
    rcases List.mem_append.mp hx with hx1 | hx2
    · exact hfk x hx1
    · rw [List.mem_singleton] at hx2
      rw [hx2]
      exact htok
  · intro h' hh'
    obtain ⟨z, hz, hzaddr⟩ := hhfk h' hh'
    exact ⟨z, List.mem_append_left _ hz, hzaddr⟩
  · intro x hx
    have hsame : ∀ a, histCount (sqlInsertMeta db m) a = histCount db a := fun _ => rfl
    rcases List.mem_append.mp hx with hx1 | hx2
    · rw [hsame]
      exact hcnt x hx1
    · rw [List.mem_singleton] at hx2
      rw [hx2, hsame, hhc0, hone]

/-! ### Lookup facts -/

theorem findMeta_none_fresh {db : DB} {key : String} (h : findMeta db key = none) :
    ∀ x ∈ db.tokenMetadata, x.tokenAddress ≠ key := by
  intro x hx heq
  exact List.find?_eq_none.mp h x hx (beq_iff_eq.mpr heq)

theorem find?_some_pred {α : Type} {p : α → Bool} {a : α} : ∀ {l : List α},
    l.find? p = some a → p a = true ∧ a ∈ l := by
  intro l
  induction l with
  | nil => intro h; cases h
  | cons x xs ih =>
    intro h
    cases hx : p x with
    | true =>
      simp only [List.find?, hx] at h
      injection h with h
      subst h
      exact ⟨hx, List.mem_cons_self _ _⟩
    | false =>
      simp only [List.find?, hx] at h
      obtain ⟨h1, h2⟩ := ih h
      exact ⟨h1, List.mem_cons_of_mem _ h2⟩

theorem findToken_some_mem {db : DB} {key : String} {t : TokenRow}
    (h : findToken db key = some t) : t ∈ db.tokens ∧ t.contractAddress = key :=
  ⟨(find?_some_pred h).2, beq_iff_eq.mp (find?_some_pred h).1⟩

theorem findMeta_some_mem {db : DB} {key : String} {m : MetaRow}
    (h : findMeta db key = some m) : m ∈ db.tokenMetadata ∧ m.tokenAddress = key :=
  ⟨(find?_some_pred h).2, beq_iff_eq.mp (find?_some_pred h).1⟩

/-! ### The store invariant is preserved by every operation -/

theorem postTemporary_inv (env : Env) (db : DB) (c : String) (b : TempBody)
    (hinv : MetaInv db) : MetaInv (postTemporary env db c b).2 := by
  unfold postTemporary
  cases b.sessionId with
  | none => exact hinv
  | some sid =>
    dsimp only
    cases db.temporaryMetadata.find? (fun t => t.sessionId == sid) with
    | none => exact hinv
    | some t =>
      dsimp only
      cases (db.temporaryMetadata.map fun t =>
          if t.sessionId == sid then
            { t with name := b.name, symbol := b.symbol,
                     description := b.description, logoData := b.logoData,
                     websiteUrl := b.websiteUrl, twitterUrl := b.twitterUrl,
                     telegramUrl := b.telegramUrl, discordUrl := b.discordUrl,
                     whitepaperUrl := b.whitepaperUrl, githubUrl := b.githubUrl,
                     tags := b.tags, expiresAt := env.now + hours24 }
          else t).find? (fun t => t.sessionId == sid) with
      | none => exact hinv
      | some r => exact hinv

theorem cleanup_inv (env : Env) (db : DB) (hinv : MetaInv db) :
    MetaInv (cleanupExpiredMetadata env db) :=
  hinv

theorem verifyMetadata_inv (env : Env) (db : DB) (c ta : String)
    (hinv : MetaInv db) : MetaInv (verifyMetadata env db c ta).2 := by
  unfold verifyMetadata
  by_cases hadm : ¬ (env.adminAddresses.map lowerStr).contains (lowerStr c)
  · rw [if_pos hadm]
    exact hinv
  · rw [if_neg hadm]
    have hres := sqlUpdateMeta_inv env.now db (lowerStr ta)
      (fun old => { old with verified := true }) (fun _ => rfl) hinv
    cases (sqlUpdateMeta env.now db (lowerStr ta)
        (fun old => { old with verified := true })).1.head? with
    | none => exact hres
    | some r => exact hres

theorem putMetadata_inv (env : Env) (db : DB) (c ta : String) (b : MetaBody)
    (hinv : MetaInv db) : MetaInv (putMetadata env db c ta b).2 := by
  unfold putMetadata
  cases findToken db (lowerStr ta) with
  | none => exact hinv
  | some tok =>
    dsimp only
    by_cases hown : lowerStr tok.ownerAddress ≠ lowerStr c
    · rw [if_pos hown]
      exact hinv
    · rw [if_neg hown]
      exact sqlUpdateMeta_inv env.now db (lowerStr ta) (fun old =>
        { old with name := b.name, symbol := b.symbol,
                   description := b.description, logoUrl := b.logoUrl,
                   websiteUrl := b.websiteUrl, twitterUrl := b.twitterUrl,
                   telegramUrl := b.telegramUrl, discordUrl := b.discordUrl,
                   whitepaperUrl := b.whitepaperUrl, githubUrl := b.githubUrl,
                   tags := b.tags }) (fun _ => rfl) hinv

theorem uploadLogo_inv (env : Env) (db : DB) (c : String) (ta : Option String)
    (f : Option UploadFile) (hinv : MetaInv db) : MetaInv (uploadLogo env db c ta f).2 := by
  unfold uploadLogo
  cases f with
  | none => exact hinv
  | some f0 =>
    dsimp only
    cases ta with
    | none => exact hinv
    | some a =>
      dsimp only
      cases findToken db (lowerStr a) with
      | none => exact hinv
      | some tok =>
        dsimp only
        by_cases hown : lowerStr tok.ownerAddress ≠ lowerStr c
        · rw [if_pos hown]
          exact hinv
        · rw [if_neg hown]
          exact sqlUpdateMeta_inv env.now db (lowerStr a) _ (fun _ => rfl) hinv

theorem postMetadata_inv (env : Env) (db : DB) (c : String) (b : MetaBody)
    (hinv : MetaInv db) : MetaInv (postMetadata env db c b).2 := by
  unfold postMetadata
  cases b.tokenAddress with
  | none => exact hinv
  | some ta =>
    dsimp only
    cases htok : findToken db (lowerStr ta) with
    | none => exact hinv
    | some tok =>
      dsimp only
      by_cases hown : lowerStr tok.ownerAddress ≠ lowerStr c
      · rw [if_pos hown]
        exact hinv
      · rw [if_neg hown]
        cases hmeta : findMeta db (lowerStr ta) with
        | some m =>
          exact sqlUpdateMeta_inv env.now db (lowerStr ta) (fun old =>
            { old with name := b.name, symbol := b.symbol,
                       description := b.description, logoUrl := b.logoUrl,
                       websiteUrl := b.websiteUrl, twitterUrl := b.twitterUrl,
                       telegramUrl := b.telegramUrl, discordUrl := b.discordUrl,
                       whitepaperUrl := b.whitepaperUrl, githubUrl := b.githubUrl,
                       tags := b.tags, lastUpdatedBy := some (lowerStr c),
                       updateCount := old.updateCount + 1 }) (fun _ => rfl) hinv
        | none =>
          apply sqlInsertMeta_inv db _ (findMeta_none_fresh hmeta)
            ⟨tok, (findToken_some_mem htok).1, (findToken_some_mem htok).2⟩ rfl hinv

theorem linkSession_inv (env : Env) (db : DB) (c : String) (ta sid : Option String)
    (hinv : MetaInv db) : MetaInv (linkSession env db c ta sid).2 := by
  unfold linkSession
  cases ta with
  | none => exact hinv
  | some a =>
    cases sid with
    | none => exact hinv
    | some s =>
      try dsimp only
      cases htok : findToken db (lowerStr a) with
      | none => exact hinv
      | some tok =>
        try dsimp only
        by_cases hown : lowerStr tok.ownerAddress ≠ lowerStr c
        · rw [if_pos hown]
          exact hinv
        · rw [if_neg hown]
          try dsimp only
          cases db.temporaryMetadata.find?
              (fun t => t.sessionId == s && t.creatorAddress == lowerStr c) with
          | none => exact hinv
          | some temp =>
            try dsimp only
            cases hmeta : findMeta db (lowerStr a) with
            | some m =>
              exact sqlUpdateMeta_inv env.now db (lowerStr a) (fun old =>
                { old with name := temp.name, symbol := temp.symbol,
                           description := temp.description,
                           logoUrl := match linkLogoUrl env a temp.logoData with
                                      | some u => some u
                                      | none => old.logoUrl,
                           websiteUrl := temp.websiteUrl, twitterUrl := temp.twitterUrl,
                           telegramUrl := temp.telegramUrl, discordUrl := temp.discordUrl,
                           whitepaperUrl := temp.whitepaperUrl, githubUrl := temp.githubUrl,
                           tags := temp.tags, lastUpdatedBy := some (lowerStr c),
                           updateCount := old.updateCount + 1 }) (fun _ => rfl) hinv
            | none =>
              exact sqlInsertMeta_inv db _ (findMeta_none_fresh hmeta)
                ⟨tok, (findToken_some_mem htok).1, (findToken_some_mem htok).2⟩ rfl hinv

theorem insertTokenLinked_inv (env : Env) (db0 : DB) (t : TokenRow)
    (hfresh : ∀ x ∈ db0.tokenMetadata, x.tokenAddress ≠ t.contractAddress)
    (htok : ∃ t' ∈ db0.tokens, t'.contractAddress = t.contractAddress)
    (hinv : MetaInv db0) : MetaInv (insertTokenLinked env db0 t) := by
  unfold insertTokenLinked
  cases mostRecentTemp (db0.temporaryMetadata.filter
      (fun s => s.creatorAddress == t.ownerAddress && decide (env.now < s.expiresAt))) with
  | none => exact hinv
  | some s2 => exact sqlInsertMeta_inv db0 (triggerMetaRow env.now t s2) hfresh htok rfl hinv

theorem insertToken_inv (env : Env) (db : DB) (t : TokenRow) (hinv : MetaInv db) :
    MetaInv (insertToken env db t) := by
  unfold insertToken
  by_cases hdup : db.tokens.any (fun u => u.contractAddress == t.contractAddress) = true
  · rw [if_pos hdup]
    exact hinv
  · rw [if_neg hdup]
    have hinv0 : MetaInv { db with tokens := db.tokens ++ [t] } := by
      obtain ⟨h1, h2, h3, h4⟩ := hinv
      refine ⟨h1, ?_, h3, h4⟩
      intro m hm
      obtain ⟨t', ht', ha⟩ := h2 m hm
      exact ⟨t', List.mem_append_left _ ht', ha⟩
    have hf : ∀ x ∈ ({ db with tokens := db.tokens ++ [t] } : DB).tokenMetadata,
        x.tokenAddress ≠ t.contractAddress := by
      intro x hx heq
      obtain ⟨t', ht', ha⟩ := hinv.2.1 x hx
      exact hdup (List.any_eq_true.mpr ⟨t', ht', beq_iff_eq.mpr (ha.trans heq)⟩)
    have ht2 : ∃ t' ∈ ({ db with tokens := db.tokens ++ [t] } : DB).tokens,
        t'.contractAddress = t.contractAddress :=
      ⟨t, List.mem_append_right _ (List.mem_singleton.mpr rfl), rfl⟩
    exact insertTokenLinked_inv env _ t hf ht2 hinv0

/-- Every operation of the system preserves the store invariant. -/
theorem stepOp_inv (env : Env) (op : Op) (db : DB) (hinv : MetaInv db) :
    MetaInv (stepOp env op db) := by
  cases op with
  | temporary c b => exact postTemporary_inv env db c b hinv
  | link c ta sid => exact linkSession_inv env db c ta sid hinv
  | create c b => exact postMetadata_inv env db c b hinv
  | update c ta b => exact putMetadata_inv env db c ta b hinv
  | verify c ta => exact verifyMetadata_inv env db c ta hinv
  | upload c ta f => exact uploadLogo_inv env db c ta f hinv
  | tokenInsert t => exact insertToken_inv env db t hinv
  | cleanup => exact cleanup_inv env db hinv

theorem applyOps_inv (l : List (Env × Op)) (db : DB) (hinv : MetaInv db) :
    MetaInv (applyOps l db) := by
  induction l generalizing db with
  | nil => exact hinv
  | cons p rest ih =>
    obtain ⟨e, op⟩ := p
    exact ih _ (stepOp_inv e op db hinv)

/-! ### `update_count` never decreases -/

theorem metaLe_refl (db : DB) : metaLe db db :=
  fun m hm => ⟨m, hm, rfl, Nat.le_refl _⟩

theorem metaLe_trans {a b c : DB} (h1 : metaLe a b) (h2 : metaLe b c) : metaLe a c := by
  intro m hm
  obtain ⟨m1, hm1, ha1, hc1⟩ := h1 m hm
  obtain ⟨m2, hm2, ha2, hc2⟩ := h2 m1 hm1
  exact ⟨m2, hm2, ha2.trans ha1, Nat.le_trans hc1 hc2⟩

theorem metaLe_insert (db : DB) (m0 : MetaRow) : metaLe db (sqlInsertMeta db m0) :=
  fun m hm => ⟨m, List.mem_append_left _ hm, rfl, Nat.le_refl _⟩

theorem postTemporary_mono (env : Env) (db : DB) (c : String) (b : TempBody) :
    metaLe db (postTemporary env db c b).2 := by
  unfold postTemporary
  cases b.sessionId with
  | none => exact metaLe_refl db
  | some sid =>
    try dsimp only
    cases db.temporaryMetadata.find? (fun t => t.sessionId == sid) with
    | none => exact metaLe_refl db
    | some t => exact metaLe_refl db

theorem verifyMetadata_mono (env : Env) (db : DB) (c ta : String) :
    metaLe db (verifyMetadata env db c ta).2 := by
  unfold verifyMetadata
  by_cases hadm : ¬ (env.adminAddresses.map lowerStr).contains (lowerStr c)
  · rw [if_pos hadm]
    exact metaLe_refl db
  · rw [if_neg hadm]
    exact sqlUpdateMeta_mono env.now db (lowerStr ta)
      (fun old => { old with verified := true }) (fun _ => rfl)

theorem putMetadata_mono (env : Env) (db : DB) (c ta : String) (b : MetaBody) :
    metaLe db (putMetadata env db c ta b).2 := by
  unfold putMetadata
  cases findToken db (lowerStr ta) with
  | none => exact metaLe_refl db
  | some tok =>
    try dsimp only
    by_cases hown : lowerStr tok.ownerAddress ≠ lowerStr c
    · rw [if_pos hown]
      exact metaLe_refl db
    · rw [if_neg hown]
      exact sqlUpdateMeta_mono env.now db (lowerStr ta) (fun old =>
        { old with name := b.name, symbol := b.symbol,
                   description := b.description, logoUrl := b.logoUrl,
                   websiteUrl := b.websiteUrl, twitterUrl := b.twitterUrl,
                   telegramUrl := b.telegramUrl, discordUrl := b.discordUrl,
                   whitepaperUrl := b.whitepaperUrl, githubUrl := b.githubUrl,
                   tags := b.tags }) (fun _ => rfl)

theorem uploadLogo_mono (env : Env) (db : DB) (c : String) (ta : Option String)
    (f : Option UploadFile) : metaLe db (uploadLogo env db c ta f).2 := by
  unfold uploadLogo
  cases f with
  | none => exact metaLe_refl db
  | some f0 =>
    try dsimp only
    cases ta with
    | none => exact metaLe_refl db
    | some a =>
      try dsimp only
      cases findToken db (lowerStr a) with
      | none => exact metaLe_refl db
      | some tok =>
        try dsimp only
        by_cases hown : lowerStr tok.ownerAddress ≠ lowerStr c
        · rw [if_pos hown]
          exact metaLe_refl db
        · rw [if_neg hown]
          exact sqlUpdateMeta_mono env.now db (lowerStr a) (fun old =>
            { old with logoUrl := some (computeLogoUrl env (some a) f0),
                       lastUpdatedBy := some (lowerStr c) }) (fun _ => rfl)

theorem postMetadata_mono (env : Env) (db : DB) (c : String) (b : MetaBody) :
    metaLe db (postMetadata env db c b).2 := by
  unfold postMetadata
  cases b.tokenAddress with
  | none => exact metaLe_refl db
  | some ta =>
    try dsimp only
    cases findToken db (lowerStr ta) with
    | none => exact metaLe_refl db
    | some tok =>
      try dsimp only
      by_cases hown : lowerStr tok.ownerAddress ≠ lowerStr c
      · rw [if_pos hown]
        exact metaLe_refl db
      · rw [if_neg hown]
        try dsimp only
        cases findMeta db (lowerStr ta) with
        | some m =>
          exact sqlUpdateMeta_mono env.now db (lowerStr ta) (fun old =>
            { old with name := b.name, symbol := b.symbol,
                       description := b.description, logoUrl := b.logoUrl,
                       websiteUrl := b.websiteUrl, twitterUrl := b.twitterUrl,
                       telegramUrl := b.telegramUrl, discordUrl := b.discordUrl,
                       whitepaperUrl := b.whitepaperUrl, githubUrl := b.githubUrl,
                       tags := b.tags, lastUpdatedBy := some (lowerStr c),
                       updateCount := old.updateCount + 1 }) (fun _ => rfl)
        | none => exact metaLe_insert db _

theorem linkSession_mono (env : Env) (db : DB) (c : String) (ta sid : Option String) :
    metaLe db (linkSession env db c ta sid).2 := by
  unfold linkSession
  cases ta with
  | none => exact metaLe_refl db
  | some a =>
    cases sid with
    | none => exact metaLe_refl db
    | some s =>
      try dsimp only
      cases findToken db (lowerStr a) with
      | none => exact metaLe_refl db
      | some tok =>
        try dsimp only
        by_cases hown : lowerStr tok.ownerAddress ≠ lowerStr c
        · rw [if_pos hown]
          exact metaLe_refl db
        · rw [if_neg hown]
          try dsimp only
          cases db.temporaryMetadata.find?
              (fun t => t.sessionId == s && t.creatorAddress == lowerStr c) with
          | none => exact metaLe_refl db
          | some temp =>
            try dsimp only
            cases findMeta db (lowerStr a) with
            | some m =>
              exact sqlUpdateMeta_mono env.now db (lowerStr a) (fun old =>
                { old with name := temp.name, symbol := temp.symbol,
                           description := temp.description,
                           logoUrl := match linkLogoUrl env a temp.logoData with
                                      | some u => some u
                                      | none => old.logoUrl,
                           websiteUrl := temp.websiteUrl, twitterUrl := temp.twitterUrl,
                           telegramUrl := temp.telegramUrl, discordUrl := temp.discordUrl,
                           whitepaperUrl := temp.whitepaperUrl, githubUrl := temp.githubUrl,
                           tags := temp.tags, lastUpdatedBy := some (lowerStr c),
                           updateCount := old.updateCount + 1 }) (fun _ => rfl)
            | none => exact metaLe_insert db _

theorem insertToken_mono (env : Env) (db : DB) (t : TokenRow) :
    metaLe db (insertToken env db t) := by
  unfold insertToken
  by_cases hdup : db.tokens.any (fun u => u.contractAddress == t.contractAddress) = true
  · rw [if_pos hdup]
    exact metaLe_refl db
  · rw [if_neg hdup]
    show metaLe db (insertTokenLinked env { db with tokens := db.tokens ++ [t] } t)
    unfold insertTokenLinked
    cases mostRecentTemp (({ db with tokens := db.tokens ++ [t] } : DB).temporaryMetadata.filter
        (fun s => s.creatorAddress == t.ownerAddress && decide (env.now < s.expiresAt))) with
    | none => exact metaLe_refl db
    | some s2 => exact fun m hm => ⟨m, List.mem_append_left _ hm, rfl, Nat.le_refl _⟩

/-- No operation deletes a metadata row or lowers its `update_count`. -/
theorem stepOp_mono (env : Env) (op : Op) (db : DB) : metaLe db (stepOp env op db) := by
  cases op with
  | temporary c b => exact postTemporary_mono env db c b
  | link c ta sid => exact linkSession_mono env db c ta sid
  | create c b => exact postMetadata_mono env db c b
  | update c ta b => exact putMetadata_mono env db c ta b
  | verify c ta => exact verifyMetadata_mono env db c ta
  | upload c ta f => exact uploadLogo_mono env db c ta f
  | tokenInsert t => exact insertToken_mono env db t
  | cleanup => exact metaLe_refl db

theorem applyOps_mono (l : List (Env × Op)) (db : DB) : metaLe db (applyOps l db) := by
  induction l generalizing db with
  | nil => exact metaLe_refl db
  | cons p rest ih =>
    obtain ⟨e, op⟩ := p
    exact metaLe_trans (stepOp_mono e op db) (ih (stepOp e op db))

/-! ## Claim theorems -/

/-- C2: for every successful Update of an existing TokenMetadataRecord,
`updateCount` increases by exactly 1 and exactly one MetadataHistoryEntry
is inserted whose `previousData` equals the full state of the record
immediately before that update — the actual prior row `m0`, captured by
the `BEFORE UPDATE` trigger from `OLD`. -/
theorem update_snapshots_prior_row (env : Env) (db : DB) (caller ta : String)
    (body : MetaBody) (tok : TokenRow) (m0 : MetaRow)
    (htok : findToken db (lowerStr ta) = some tok)
    (howner : lowerStr tok.ownerAddress = lowerStr caller)
    (hnd : (db.tokenMetadata.map (fun m => m.tokenAddress)).Nodup)
    (hm : m0 ∈ db.tokenMetadata) (hkey : m0.tokenAddress = lowerStr ta) :
    ∃ r, (putMetadata env db caller ta body).1 = Resp.ok r ∧
      r.updateCount = m0.updateCount + 1 ∧
      ((putMetadata env db caller ta body).2).tokenMetadata.filter
          (fun m => m.tokenAddress == lowerStr ta) = [r] ∧
      ((putMetadata env db caller ta body).2).tokenMetadataHistory
        = db.tokenMetadataHistory ++
          [{ tokenAddress := m0.tokenAddress, updatedBy := m0.lastUpdatedBy,
             updateTimestamp := env.now, previousData := m0 }] := by
  obtain ⟨hret, hhist, hstore, _, _⟩ := sqlUpdateMeta_exact env.now db (lowerStr ta)
    (fun old =>
      { old with name := body.name, symbol := body.symbol,
                 description := body.description, logoUrl := body.logoUrl,
                 websiteUrl := body.websiteUrl, twitterUrl := body.twitterUrl,
                 telegramUrl := body.telegramUrl, discordUrl := body.discordUrl,
                 whitepaperUrl := body.whitepaperUrl, githubUrl := body.githubUrl,
                 tags := body.tags }) m0 (fun _ => rfl) hnd hm hkey
  unfold putMetadata
  rw [htok]
  dsimp only
  rw [if_neg (not_not_intro howner)]
  dsimp only
  rw [hret]
  refine ⟨_, rfl, ?_, ?_, ?_⟩
  · exact applyUpdateTriggers_fst_updateCount env.now m0 _
  · exact hstore
  · rw [hhist]
    rfl

/-- C2 witness: a concrete successful PUT on `0xT1` by its owner. -/
theorem update_snapshots_prior_row_witness :
    (findToken dbOwned (lowerStr "0xT1") = some tokT1) ∧
    (lowerStr tokT1.ownerAddress = lowerStr "0xALICE") ∧
    (metaM1 ∈ dbOwned.tokenMetadata) ∧
    (∃ r, (putMetadata envBase dbOwned "0xALICE" "0xT1" bodyUpd).1 = Resp.ok r ∧
      r.updateCount = metaM1.updateCount + 1 ∧
      ((putMetadata envBase dbOwned "0xALICE" "0xT1" bodyUpd).2).tokenMetadata.filter
          (fun m => m.tokenAddress == lowerStr "0xT1") = [r] ∧
      ((putMetadata envBase dbOwned "0xALICE" "0xT1" bodyUpd).2).tokenMetadataHistory
        = dbOwned.tokenMetadataHistory ++
          [{ tokenAddress := metaM1.tokenAddress, updatedBy := metaM1.lastUpdatedBy,
             updateTimestamp := envBase.now, previousData := metaM1 }]) :=
  ⟨by decide, by decide, by decide,
   update_snapshots_prior_row envBase dbOwned "0xALICE" "0xT1" bodyUpd tokT1 metaM1
     (by decide) (by decide) (by decide) (by decide) (by decide)⟩

/-- C8: every successful UPDATE of a `token_metadata` row — the shared
`sqlUpdateMeta` path through the `BEFORE UPDATE` triggers, and in
particular the Verify endpoint and UploadLogo's URL persistence —
appends exactly one history row whose `previous_data` is the prior row
and increments `update_count` by exactly 1; consequently `update_count`
never decreases under any operation, and in every invariant state the
number of history rows for a token equals `update_count` minus its
creation value (1 on every creation path in the code), an invariant
preserved by every operation and every trace. -/
theorem every_update_appends_history_and_count :
    (∀ now db key upd m0,
       (∀ x : MetaRow, (upd x).tokenAddress = x.tokenAddress) →
       (db.tokenMetadata.map (fun m => m.tokenAddress)).Nodup →
       m0 ∈ db.tokenMetadata → m0.tokenAddress = key →
       ((sqlUpdateMeta now db key upd).2).tokenMetadataHistory
         = db.tokenMetadataHistory ++ [(applyUpdateTriggers now m0 (upd m0)).2] ∧
       ((applyUpdateTriggers now m0 (upd m0)).2).previousData = m0 ∧
       ((sqlUpdateMeta now db key upd).2).tokenMetadata.filter
           (fun m => m.tokenAddress == key)
         = [(applyUpdateTriggers now m0 (upd m0)).1] ∧
       ((applyUpdateTriggers now m0 (upd m0)).1).updateCount = m0.updateCount + 1) ∧
    (∀ env db c ta m0,
       ((env.adminAddresses.map lowerStr).contains (lowerStr c)) = true →
       (db.tokenMetadata.map (fun m => m.tokenAddress)).Nodup →
       m0 ∈ db.tokenMetadata → m0.tokenAddress = lowerStr ta →
       ((verifyMetadata env db c ta).2).tokenMetadataHistory
         = db.tokenMetadataHistory ++
           [{ tokenAddress := m0.tokenAddress, updatedBy := m0.lastUpdatedBy,
              updateTimestamp := env.now, previousData := m0 }]) ∧
    (∀ env db c ta f tok m0,
       findToken db (lowerStr ta) = some tok →
       lowerStr tok.ownerAddress = lowerStr c →
       (db.tokenMetadata.map (fun m => m.tokenAddress)).Nodup →
       m0 ∈ db.tokenMetadata → m0.tokenAddress = lowerStr ta →
       ((uploadLogo env db c (some ta) (some f)).2).tokenMetadataHistory
         = db.tokenMetadataHistory ++
           [{ tokenAddress := m0.tokenAddress, updatedBy := some (lowerStr c),
              updateTimestamp := env.now, previousData := m0 }]) ∧
    (∀ env op db, metaLe db (stepOp env op db)) ∧
    (∀ env op db, MetaInv db → MetaInv (stepOp env op db)) ∧
    (∀ l db, MetaInv db → MetaInv (applyOps l db)) := by
  refine ⟨?_, ?_, ?_, stepOp_mono, stepOp_inv, applyOps_inv⟩
  · intro now db key upd m0 hpres hnd hm hkey
    obtain ⟨h1, h2, h3, _, _⟩ := sqlUpdateMeta_exact now db key upd m0 hpres hnd hm hkey
    exact ⟨h2, rfl, h3, applyUpdateTriggers_fst_updateCount now m0 _⟩
  · intro env db c ta m0 hadm hnd hm hkey
    obtain ⟨h1, h2, h3, _, _⟩ := sqlUpdateMeta_exact env.now db (lowerStr ta)
      (fun old => { old with verified := true }) m0 (fun _ => rfl) hnd hm hkey
    unfold verifyMetadata
    rw [if_neg (not_not_intro hadm)]
    dsimp only
    rw [h2]
    rfl
  · intro env db c ta f tok m0 htok howner hnd hm hkey
    obtain ⟨h1, h2, h3, _, _⟩ := sqlUpdateMeta_exact env.now db (lowerStr ta)
      (fun old => { old with logoUrl := some (computeLogoUrl env (some ta) f),
                             lastUpdatedBy := some (lowerStr c) }) m0 (fun _ => rfl) hnd hm hkey
    unfold uploadLogo
    dsimp only
    rw [htok]
    dsimp only
    rw [if_neg (not_not_intro howner)]
    dsimp only
    rw [h2]
    rfl

/-- C8 witness: UploadLogo on `0xT1` by its owner appends exactly the
history snapshot of the prior row. -/
theorem every_update_appends_history_and_count_witness :
    (findToken dbOwned (lowerStr "0xT1") = some tokT1) ∧
    (metaM1 ∈ dbOwned.tokenMetadata) ∧
    ((uploadLogo envBase dbOwned "0xAlice" (some "0xT1") (some fileLogo)).2).tokenMetadataHistory
      = dbOwned.tokenMetadataHistory ++
        [{ tokenAddress := metaM1.tokenAddress, updatedBy := some (lowerStr "0xAlice"),
           updateTimestamp := envBase.now, previousData := metaM1 }] :=
  ⟨by decide, by decide,
   every_update_appends_history_and_count.2.2.1 envBase dbOwned "0xAlice" "0xT1" fileLogo
     tokT1 metaM1 (by decide) (by decide) (by decide) (by decide) (by decide)⟩

/-- C4 (code-bug evidence): a successful PUT by the owner of `0xT1`
overwrites the supplied fields and increments `updateCount`, but leaves
`lastUpdatedBy` at its previous value `0xcarol` — `last_updated_by` is
not in the SET list of the PUT handler, and nothing else writes it — so
the record is not attributed to the caller `0xalice`. -/
theorem update_leaves_last_updated_by_unchanged :
    ((putMetadata envBase dbOwned "0xALICE" "0xT1" bodyUpd).1.isOk = true) ∧
    (∀ r ∈ ((putMetadata envBase dbOwned "0xALICE" "0xT1" bodyUpd).2).tokenMetadata,
        r.lastUpdatedBy = some "0xcarol" ∧ r.name = some "New name" ∧
        r.updateCount = metaM1.updateCount + 1) ∧
    some "0xcarol" ≠ some (lowerStr "0xALICE") := by
  decide

/-- C5 (code-bug evidence): a Create call with `tokenAddress` omitted
skips the ownership guard but then evaluates
`metadata.tokenAddress.toLowerCase()` on `undefined`; the thrown
`TypeError` is caught and surfaces as a 500 error with the store
untouched — no provisional insert ever happens. -/
theorem create_without_token_address_returns_500 :
    postMetadata envBase dbOwned "0xAlice" bodyNoAddr
      = (Resp.serverError "Failed to save token metadata", dbOwned) := by
  decide

/-- C1 counterexample: with the chain oracle answering that `owner()` of
`0xT1` is `0xBob` (and an RPC URL configured), an Update by `0xAlice`
still succeeds because the handler compares against the `owner_address`
stored in the `tokens` table — while the on-chain helper
`verifyTokenOwnership` (which the routes never call) answers `false`. -/
theorem ownership_check_ignores_chain_counterexample :
    ((putMetadata envChain dbOwned "0xAlice" "0xT1" bodyUpd).1.isOk = true) ∧
    (verifyTokenOwnership envChain dbOwned "0xT1" "0xAlice" = false) := by
  decide

/-- C1 amended: every ownership-gated operation decides from the
`owner_address` recorded in the local `tokens` table: the result of each
handler is unchanged under arbitrary replacement of the chain oracles
(`owner()` accessor and RPC configuration), and success implies the
stored owner — not the on-chain owner — matches the caller. -/
theorem ownership_checks_use_stored_owner :
    (∀ e co co' rp rp' db c ta body,
        putMetadata (chainEnv e co rp) db c ta body
          = putMetadata (chainEnv e co' rp') db c ta body) ∧
    (∀ e co co' rp rp' db c body,
        postMetadata (chainEnv e co rp) db c body
          = postMetadata (chainEnv e co' rp') db c body) ∧
    (∀ e co co' rp rp' db c ta sid,
        linkSession (chainEnv e co rp) db c ta sid
          = linkSession (chainEnv e co' rp') db c ta sid) ∧
    (∀ e co co' rp rp' db c ta f,
        uploadLogo (chainEnv e co rp) db c ta f
          = uploadLogo (chainEnv e co' rp') db c ta f) ∧
    (∀ env db c ta body, (putMetadata env db c ta body).1.isOk = true →
        ∃ tok, findToken db (lowerStr ta) = some tok ∧
          lowerStr tok.ownerAddress = lowerStr c) ∧
    (∀ env db c body ta, body.tokenAddress = some ta →
        (postMetadata env db c body).1.isOk = true →
        ∃ tok, findToken db (lowerStr ta) = some tok ∧
          lowerStr tok.ownerAddress = lowerStr c) ∧
    (∀ env db c ta sid, (linkSession env db c (some ta) (some sid)).1.isOk = true →
        ∃ tok, findToken db (lowerStr ta) = some tok ∧
          lowerStr tok.ownerAddress = lowerStr c) ∧
    (∀ env db c ta f, (uploadLogo env db c (some ta) f).1.isOk = true →
        ∃ tok, findToken db (lowerStr ta) = some tok ∧
          lowerStr tok.ownerAddress = lowerStr c) ∧
    (∀ db c ta, (getHistory db c ta).1.isOk = true →
        ∃ tok, findToken db (lowerStr ta) = some tok ∧
          lowerStr tok.ownerAddress = lowerStr c) := by
  refine ⟨fun _ _ _ _ _ _ _ _ _ => rfl, fun _ _ _ _ _ _ _ _ => rfl,
    fun _ _ _ _ _ _ _ _ _ => rfl, fun _ _ _ _ _ _ _ _ _ => rfl, ?_, ?_, ?_, ?_, ?_⟩
  · intro env db c ta body h
    unfold putMetadata at h
    cases htok : findToken db (lowerStr ta) with
    | none => rw [htok] at h; cases h
    | some tok =>
      rw [htok] at h
      dsimp only at h
      by_cases hown : lowerStr tok.ownerAddress = lowerStr c
      · exact ⟨tok, rfl, hown⟩
      · rw [if_pos hown] at h
        cases h
  · intro env db c body ta hta h
    unfold postMetadata at h
    rw [hta] at h
    dsimp only at h
    cases htok : findToken db (lowerStr ta) with
    | none => rw [htok] at h; cases h
    | some tok =>
      rw [htok] at h
      dsimp only at h
      by_cases hown : lowerStr tok.ownerAddress = lowerStr c
      · exact ⟨tok, rfl, hown⟩
      · rw [if_pos hown] at h
        cases h
  · intro env db c ta sid h
    unfold linkSession at h
    dsimp only at h
    cases htok : findToken db (lowerStr ta) with
    | none => rw [htok] at h; cases h
    | some tok =>
      rw [htok] at h
      dsimp only at h
      by_cases hown : lowerStr tok.ownerAddress = lowerStr c
      · exact ⟨tok, rfl, hown⟩
      · rw [if_pos hown] at h
        cases h
  · intro env db c ta f h
    unfold uploadLogo at h
    cases f with
    | none => cases h
    | some f0 =>
      dsimp only at h
      cases htok : findToken db (lowerStr ta) with
      | none => rw [htok] at h; cases h
      | some tok =>
        rw [htok] at h
        dsimp only at h
        by_cases hown : lowerStr tok.ownerAddress = lowerStr c
        · exact ⟨tok, rfl, hown⟩
        · rw [if_pos hown] at h
          cases h
  · intro db c ta h
    unfold getHistory at h
    cases htok : findToken db (lowerStr ta) with
    | none => rw [htok] at h; cases h
    | some tok =>
      rw [htok] at h
      dsimp only at h
      by_cases hown : lowerStr tok.ownerAddress = lowerStr c
      · exact ⟨tok, rfl, hown⟩
      · rw [if_pos hown] at h
        cases h

/-- C1 amended witness: the successful concrete Update of the
counterexample indeed has a stored owner matching the caller. -/
theorem ownership_checks_use_stored_owner_witness :
    ((putMetadata envChain dbOwned "0xAlice" "0xT1" bodyUpd).1.isOk = true) ∧
    (∃ tok, findToken dbOwned (lowerStr "0xT1") = some tok ∧
      lowerStr tok.ownerAddress = lowerStr "0xAlice") :=
  ⟨by decide,
   ownership_checks_use_stored_owner.2.2.2.2.1 envChain dbOwned "0xAlice" "0xT1" bodyUpd
     (by decide)⟩

theorem head?_map_ne_nil {α β : Type} (l : List α) (g : α → β) (h : l ≠ []) :
    ∃ b, (l.map g).head? = some b := by
  cases l with
  | nil => exact absurd rfl h
  | cons x xs => exact ⟨g x, rfl⟩

/-- C3 counterexample: session `s1` of `0xalice` expired at 500 and the
clock stands at 1000, yet LinkSession succeeds and consumes it (the
claim demands NotFound), and the session-upsert lookup also still finds
the expired row (the refreshed row keeps its original `createdAt`,
proving it was found rather than re-created). -/
theorem link_returns_expired_session_counterexample :
    (tempExpired.expiresAt < envBase.now) ∧
    ((linkSession envBase dbExpiredSession "0xAlice" (some "0xT1") (some "s1")).1.isOk
      = true) ∧
    ((linkSession envBase dbExpiredSession "0xAlice" (some "0xT1") (some "s1")).2).temporaryMetadata
      = [] ∧
    (∀ t ∈ ((postTemporary envBase dbExpiredSession "0xAlice" bodyTemp).2).temporaryMetadata,
      t.createdAt = tempExpired.createdAt ∧ t.expiresAt = envBase.now + hours24) := by
  decide

/-- C3 amended: the link-time session lookup filters on `session_id` and
`creator_address` only — `expires_at` is not part of the query — so a
matching session is returned and linked, and then deleted, even when it
is already expired and merely not yet swept; expiry is enforced only by
the `cleanup_expired_metadata` sweep and the tokens-insert trigger. -/
theorem link_ignores_session_expiry (env : Env) (db : DB) (c ta sid : String)
    (tok : TokenRow) (s : TempRow)
    (htok : findToken db (lowerStr ta) = some tok)
    (howner : lowerStr tok.ownerAddress = lowerStr c)
    (hfind : db.temporaryMetadata.find?
      (fun t => t.sessionId == sid && t.creatorAddress == lowerStr c) = some s)
    (hexp : s.expiresAt < env.now) :
    ((linkSession env db c (some ta) (some sid)).1.isOk = true) ∧
    ((linkSession env db c (some ta) (some sid)).2).temporaryMetadata
      = db.temporaryMetadata.filter (fun t => !(t.sessionId == sid)) := by
  unfold linkSession
  try dsimp only
  rw [htok]
  try dsimp only
  rw [if_neg (not_not_intro howner)]
  try dsimp only
  rw [hfind]
  try dsimp only
  cases hmeta : findMeta db (lowerStr ta) with
  | some m =>
    try dsimp only
    have hmem : m ∈ db.tokenMetadata.filter (fun r => r.tokenAddress == lowerStr ta) :=
      List.mem_filter.mpr
        ⟨(findMeta_some_mem hmeta).1, beq_iff_eq.mpr (findMeta_some_mem hmeta).2⟩
    have hne : db.tokenMetadata.filter (fun r => r.tokenAddress == lowerStr ta) ≠ [] := by
      intro hnil
      rw [hnil] at hmem
      cases hmem
    have hr2 : ∃ b, (sqlUpdateMeta env.now db (lowerStr ta) (fun old =>
        { old with name := s.name, symbol := s.symbol, description := s.description,
                   logoUrl := match linkLogoUrl env ta s.logoData with
                              | some u => some u
                              | none => old.logoUrl,
                   websiteUrl := s.websiteUrl, twitterUrl := s.twitterUrl,
                   telegramUrl := s.telegramUrl, discordUrl := s.discordUrl,
                   whitepaperUrl := s.whitepaperUrl, githubUrl := s.githubUrl,
                   tags := s.tags, lastUpdatedBy := some (lowerStr c),
                   updateCount := old.updateCount + 1 })).1.head? = some b :=
      head?_map_ne_nil _ _ hne
    obtain ⟨r, hr⟩ := hr2
    rw [hr]
    exact ⟨rfl, rfl⟩
  | none =>
    exact ⟨rfl, rfl⟩

/-- C3 amended witness: the concrete expired link of the counterexample,
via the general statement. -/
theorem link_ignores_session_expiry_witness :
    (tempExpired.expiresAt < envBase.now) ∧
    ((linkSession envBase dbExpiredSession "0xAlice" (some "0xT1") (some "s1")).1.isOk
        = true) ∧
    ((linkSession envBase dbExpiredSession "0xAlice" (some "0xT1") (some "s1")).2).temporaryMetadata
      = dbExpiredSession.temporaryMetadata.filter (fun t => !(t.sessionId == "s1")) :=
  ⟨by decide,
   (link_ignores_session_expiry envBase dbExpiredSession "0xAlice" "0xT1" "s1" tokT1
      tempExpired (by decide) (by decide) (by decide) (by decide)).1,
   (link_ignores_session_expiry envBase dbExpiredSession "0xAlice" "0xT1" "s1" tokT1
      tempExpired (by decide) (by decide) (by decide) (by decide)).2⟩

/-- C6: whenever LinkSession fails with NotFound (missing token, or
missing session / session of a different creator) or Forbidden (the
ownership check), the database is returned unchanged: no
TokenMetadataRecord is created or altered and no session is deleted. -/
theorem link_failure_leaves_store_unchanged (env : Env) (db : DB) (c : String)
    (ta sid : Option String)
    (h : ((linkSession env db c ta sid).1.isNotFound = true) ∨
         ((linkSession env db c ta sid).1.isForbidden = true)) :
    (linkSession env db c ta sid).2 = db := by
  unfold linkSession at h ⊢
  cases ta with
  | none => rfl
  | some a =>
    cases sid with
    | none => rfl
    | some s2 =>
      try dsimp only at h ⊢
      cases htok : findToken db (lowerStr a) with
      | none => rfl
      | some tok =>
        rw [htok] at h
        try dsimp only at h ⊢
        by_cases hown : lowerStr tok.ownerAddress ≠ lowerStr c
        · rw [if_pos hown]
        · rw [if_neg hown] at h ⊢
          try dsimp only at h ⊢
          cases hfind : db.temporaryMetadata.find?
              (fun t => t.sessionId == s2 && t.creatorAddress == lowerStr c) with
          | none => rfl
          | some temp =>
            rw [hfind] at h
            try dsimp only at h ⊢
            cases hmeta : findMeta db (lowerStr a) with
            | some m =>
              rw [hmeta] at h
              try dsimp only at h
              cases hh : (sqlUpdateMeta env.now db (lowerStr a) (fun old =>
                  { old with name := temp.name, symbol := temp.symbol,
                             description := temp.description,
                             logoUrl := match linkLogoUrl env a temp.logoData with
                                        | some u => some u
                                        | none => old.logoUrl,
                             websiteUrl := temp.websiteUrl, twitterUrl := temp.twitterUrl,
                             telegramUrl := temp.telegramUrl, discordUrl := temp.discordUrl,
                             whitepaperUrl := temp.whitepaperUrl, githubUrl := temp.githubUrl,
                             tags := temp.tags, lastUpdatedBy := some (lowerStr c),
                             updateCount := old.updateCount + 1 })).1.head? with
              | none =>
                rw [hh] at h
                rcases h with h | h <;> exact Bool.noConfusion h
              | some r =>
                rw [hh] at h
                rcases h with h | h <;> exact Bool.noConfusion h
            | none =>
              rw [hmeta] at h
              try dsimp only at h
              rcases h with h | h <;> exact Bool.noConfusion h

/-- C6 witness: a Forbidden link attempt (`0xBob` is not the stored
owner of `0xT1`) leaves the concrete store untouched. -/
theorem link_failure_leaves_store_unchanged_witness :
    ((linkSession envBase dbExpiredSession "0xBob" (some "0xT1") (some "s1")).1.isForbidden
        = true) ∧
    (linkSession envBase dbExpiredSession "0xBob" (some "0xT1") (some "s1")).2
      = dbExpiredSession :=
  ⟨by decide,
   link_failure_leaves_store_unchanged envBase dbExpiredSession "0xBob"
     (some "0xT1") (some "s1") (Or.inr (by decide))⟩

/-! ### The `ORDER BY created_at DESC LIMIT 1` pick -/

theorem mostRecentTemp_eq_none {l : List TempRow} (h : mostRecentTemp l = none) :
    l = [] := by
  cases l with
  | nil => rfl
  | cons t ts =>
    simp only [mostRecentTemp] at h
    cases hmr : mostRecentTemp ts with
    | none =>
      rw [hmr] at h
      exact Option.noConfusion h
    | some b =>
      rw [hmr] at h
      dsimp only at h
      by_cases hc : b.createdAt < t.createdAt
      · rw [if_pos hc] at h
        exact Option.noConfusion h
      · rw [if_neg hc] at h
        exact Option.noConfusion h

theorem mostRecentTemp_some {l : List TempRow} {b : TempRow}
    (h : mostRecentTemp l = some b) :
    b ∈ l ∧ ∀ x ∈ l, x.createdAt ≤ b.createdAt := by
  induction l generalizing b with
  | nil => cases h
  | cons t ts ih =>
    simp only [mostRecentTemp] at h
    cases hmr : mostRecentTemp ts with
    | none =>
      rw [hmr] at h
      dsimp only at h
      injection h with h
      subst h
      have hnil := mostRecentTemp_eq_none hmr
      subst hnil
      exact ⟨List.mem_cons_self _ _, by
        intro x hx
        rw [List.mem_singleton] at hx
        rw [hx]⟩
    | some b0 =>
      rw [hmr] at h
      dsimp only at h
      obtain ⟨hb0, hbd⟩ := ih hmr
      by_cases hc : b0.createdAt < t.createdAt
      · rw [if_pos hc] at h
        injection h with h
        subst h
        refine ⟨List.mem_cons_self _ _, ?_⟩
        intro x hx
        rcases List.mem_cons.mp hx with rfl | hx2
        · exact Nat.le_refl _
        · exact Nat.le_trans (hbd x hx2) (Nat.le_of_lt hc)
      · rw [if_neg hc] at h
        injection h with h
        subst h
        refine ⟨List.mem_cons_of_mem _ hb0, ?_⟩
        intro x hx
        rcases List.mem_cons.mp hx with rfl | hx2
        · exact Nat.le_of_not_lt hc
        · exact hbd x hx2

/-- C7: inserting a `tokens` row with a fresh contract address fires the
`link_temporary_metadata` trigger: when the owner has at least one
non-expired session, the most recently created one is copied into
`token_metadata` with `update_count = 1` (and a NULL logo), and then all
of the owner's non-expired sessions — not only the copied one — are
deleted, with no REST call involved; expired sessions and other
creators' sessions survive, and when no non-expired session exists the
metadata table is untouched. -/
theorem token_insert_trigger_links_and_consumes (env : Env) (db : DB) (t : TokenRow)
    (hfreshtok : db.tokens.any (fun u => u.contractAddress == t.contractAddress) = false) :
    ((insertToken env db t).tokens = db.tokens ++ [t]) ∧
    ((insertToken env db t).temporaryMetadata
      = db.temporaryMetadata.filter
          (fun s => !(s.creatorAddress == t.ownerAddress && decide (env.now < s.expiresAt)))) ∧
    ((insertToken env db t).tokenMetadataHistory = db.tokenMetadataHistory) ∧
    (match mostRecentTemp (db.temporaryMetadata.filter
        (fun s => s.creatorAddress == t.ownerAddress && decide (env.now < s.expiresAt))) with
     | some s2 =>
        ((insertToken env db t).tokenMetadata
          = db.tokenMetadata ++ [triggerMetaRow env.now t s2]) ∧
        (triggerMetaRow env.now t s2).updateCount = 1 ∧
        (triggerMetaRow env.now t s2).logoUrl = none ∧
        s2 ∈ db.temporaryMetadata ∧ s2.creatorAddress = t.ownerAddress ∧
        env.now < s2.expiresAt ∧
        (∀ x ∈ db.temporaryMetadata, x.creatorAddress = t.ownerAddress →
          env.now < x.expiresAt → x.createdAt ≤ s2.createdAt)
     | none =>
        ((insertToken env db t).tokenMetadata = db.tokenMetadata) ∧
        (∀ x ∈ db.temporaryMetadata, x.creatorAddress = t.ownerAddress →
          ¬ env.now < x.expiresAt)) := by
  unfold insertToken
  rw [if_neg (by rw [hfreshtok]; exact Bool.false_ne_true)]
  unfold insertTokenLinked
  try dsimp only
  cases hmr : mostRecentTemp (db.temporaryMetadata.filter
      (fun s => s.creatorAddress == t.ownerAddress && decide (env.now < s.expiresAt))) with
  | none =>
    have hnil := mostRecentTemp_eq_none hmr
    refine ⟨rfl, rfl, rfl, rfl, ?_⟩
    intro x hx hc he
    have hxf : x ∈ db.temporaryMetadata.filter
        (fun s => s.creatorAddress == t.ownerAddress && decide (env.now < s.expiresAt)) :=
      List.mem_filter.mpr ⟨hx, by
        rw [Bool.and_eq_true, beq_iff_eq, decide_eq_true_iff]
        exact ⟨hc, he⟩⟩
    rw [hnil] at hxf
    cases hxf
  | some s2 =>
    obtain ⟨hmem, hmax⟩ := mostRecentTemp_some hmr
    have hmem2 := List.mem_of_mem_filter hmem
    have hpred := (List.mem_filter.mp hmem).2
    rw [Bool.and_eq_true, beq_iff_eq, decide_eq_true_iff] at hpred
    refine ⟨rfl, rfl, rfl, rfl, rfl, rfl, hmem2, hpred.1, hpred.2, ?_⟩
    intro x hx hc he
    exact hmax x (List.mem_filter.mpr ⟨hx, by
      rw [Bool.and_eq_true, beq_iff_eq, decide_eq_true_iff]
      exact ⟨hc, he⟩⟩)

/-- C7 witness: inserting `0xt2` for `0xalice` into a store holding one
expired and one valid session copies the valid one and deletes it, while
the expired session survives for the sweep. -/
theorem token_insert_trigger_links_and_consumes_witness :
    (dbTwoSessions.tokens.any
      (fun u => u.contractAddress == tokNew.contractAddress) = false) ∧
    ((insertToken envBase dbTwoSessions tokNew).tokens = dbTwoSessions.tokens ++ [tokNew]) ∧
    ((insertToken envBase dbTwoSessions tokNew).temporaryMetadata
      = dbTwoSessions.temporaryMetadata.filter
          (fun s => !(s.creatorAddress == tokNew.ownerAddress
            && decide (envBase.now < s.expiresAt)))) ∧
    ((insertToken envBase dbTwoSessions tokNew).temporaryMetadata = [tempExpired]) ∧
    ((insertToken envBase dbTwoSessions tokNew).tokenMetadata
      = dbTwoSessions.tokenMetadata ++ [triggerMetaRow envBase.now tokNew tempValid]) :=
  ⟨by decide,
   (token_insert_trigger_links_and_consumes envBase dbTwoSessions tokNew (by decide)).1,
   (token_insert_trigger_links_and_consumes envBase dbTwoSessions tokNew (by decide)).2.1,
   by decide,
   by decide⟩

/-- C9 counterexample: UploadLogo for `0xT1` (caller is the stored
owner) when no `token_metadata` row exists for the token: the UPDATE
matches zero rows, so the URL is persisted nowhere, yet the handler
reports success with the URL — no explicit error is surfaced. -/
theorem upload_logo_silent_nonpersistence_counterexample :
    ((uploadLogo envBase dbNoMeta "0xAlice" (some "0xT1") (some fileLogo)).1
      = Resp.ok "http://localhost:3001/uploads/logo-17-42.png") ∧
    ((uploadLogo envBase dbNoMeta "0xAlice" (some "0xT1") (some fileLogo)).2).tokenMetadata
      = [] := by
  decide

/-- C9 amended: when a metadata record for the token exists, a
successful UploadLogo call persists the returned URL (and the caller as
`last_updated_by`) onto that record; a thrown database error would
surface through the handler's catch as a 500, but when no record exists
the zero-row UPDATE is silently skipped and success is still reported. -/
theorem upload_logo_persists_when_record_exists (env : Env) (db : DB) (c ta : String)
    (f : UploadFile) (tok : TokenRow) (m0 : MetaRow)
    (htok : findToken db (lowerStr ta) = some tok)
    (howner : lowerStr tok.ownerAddress = lowerStr c)
    (hnd : (db.tokenMetadata.map (fun m => m.tokenAddress)).Nodup)
    (hm : m0 ∈ db.tokenMetadata) (hkey : m0.tokenAddress = lowerStr ta) :
    ∃ url r, (uploadLogo env db c (some ta) (some f)).1 = Resp.ok url ∧
      ((uploadLogo env db c (some ta) (some f)).2).tokenMetadata.filter
          (fun m => m.tokenAddress == lowerStr ta) = [r] ∧
      r.logoUrl = some url ∧ r.lastUpdatedBy = some (lowerStr c) := by
  obtain ⟨h1, h2, h3, _, _⟩ := sqlUpdateMeta_exact env.now db (lowerStr ta)
    (fun old => { old with logoUrl := some (computeLogoUrl env (some ta) f),
                           lastUpdatedBy := some (lowerStr c) }) m0 (fun _ => rfl) hnd hm hkey
  unfold uploadLogo
  try dsimp only
  rw [htok]
  try dsimp only
  rw [if_neg (not_not_intro howner)]
  try dsimp only
  exact ⟨computeLogoUrl env (some ta) f, _, rfl, h3, rfl, rfl⟩

/-- C9 amended witness: with the record present, the uploaded URL is
stored on it. -/
theorem upload_logo_persists_when_record_exists_witness :
    (findToken dbOwned (lowerStr "0xT1") = some tokT1) ∧
    (metaM1 ∈ dbOwned.tokenMetadata) ∧
    (∃ url r, (uploadLogo envBase dbOwned "0xAlice" (some "0xT1") (some fileLogo)).1
        = Resp.ok url ∧
      ((uploadLogo envBase dbOwned "0xAlice" (some "0xT1") (some fileLogo)).2).tokenMetadata.filter
          (fun m => m.tokenAddress == lowerStr "0xT1") = [r] ∧
      r.logoUrl = some url ∧ r.lastUpdatedBy = some (lowerStr "0xAlice")) :=
  ⟨by decide, by decide,
   upload_logo_persists_when_record_exists envBase dbOwned "0xAlice" "0xT1" fileLogo
     tokT1 metaM1 (by decide) (by decide) (by decide) (by decide) (by decide)⟩

end TokenGen
